import Mathlib

/-!
# Verification of the encode-first corruption pipeline
  (`add_noise_and_swap_records.py`)

Shallow embedding of the noise-and-swap pipeline:
* Python strings are modelled as `List Char` (ASCII model of the case
  functions);
* Python floats are modelled as rationals `ℚ`;
* the shared `random.Random` generator is modelled as a trace
  (`List Draw`): every primitive call (`random`, `choice`, `randrange`,
  `randint`, `sample`, `shuffle`) consumes exactly one trace element and
  interprets it totally, so draw counts and draw order are observable;
* `datetime` values are modelled as year/month/day triples over the
  proleptic Gregorian calendar, with day arithmetic by iterated
  calendar successor/predecessor and Python's `MINYEAR`/`MAXYEAR`
  overflow modelled by an `Option` result;
* `strptime` is modelled at the token level following the regexes CPython
  builds for the directives `%m`, `%d`, `%Y`, `%b` (one or two digits for
  month/day with the documented ranges, exactly four digits for the year,
  month-name abbreviation for `%b`), including the `ValueError` raised by
  an invalid calendar combination;
* records are association lists with Python-dict update semantics
  (replace the first binding, else append); fallible code returns
  `Option`.
-/

namespace NoisePipeline

/-! ## The random-generator trace model -/

/-- One element of the random-generator trace.  Each primitive call of
`random.Random` consumes exactly one element: `flt` feeds `rng.random()`,
`nat` feeds `rng.choice` / `rng.randrange` / `rng.randint` /
`rng.sample` (interpreted modulo the relevant size at the call site), and
`perm` feeds `rng.shuffle`. -/
inductive Draw where
  | flt : ℚ → Draw
  | nat : ℕ → Draw
  | perm : List ℕ → Draw
deriving DecidableEq

/-- The generator state: the not-yet-consumed trace. -/
abbrev Rng := List Draw

/-- `rng.random()`: consume one trace element, producing a rational in
`[0, 1)` for well-formed traces. -/
def takeFloat : Rng → ℚ × Rng
  | Draw.flt q :: g => (q, g)
  | _ :: g => (0, g)
  | [] => (0, [])

/-- Consume one trace element, producing a natural number; used for
`choice` / `randrange` / `randint` / `sample` at their call sites. -/
def takeNat : Rng → ℕ × Rng
  | Draw.nat n :: g => (n, g)
  | _ :: g => (0, g)
  | [] => (0, [])

/-- Consume one trace element for `rng.shuffle(range(n))`; the
interpretation always yields a permutation of `range n`, which is the
guarantee `shuffle` provides. -/
def takeShuffle (g : Rng) (n : ℕ) : List ℕ × Rng :=
  match g with
  | Draw.perm l :: g' => (if l.Perm (List.range n) then l else List.range n, g')
  | _ :: g' => (List.range n, g')
  | [] => (List.range n, [])

/-- A well-formed trace: every `rng.random()` outcome lies in `[0, 1)`. -/
def WFRng (g : Rng) : Prop := ∀ q : ℚ, Draw.flt q ∈ g → 0 ≤ q ∧ q < 1

/-- `rng.choice(xs)` index interpretation. -/
def pyChoiceIdx (k n : ℕ) : ℕ := k % n

/-- `rng.randint(a, b)` interpretation (requires `a ≤ b`, which holds at
every call site). -/
def pyRandint (a b : ℤ) (k : ℕ) : ℤ := a + (k : ℤ) % (b - a + 1)

/-- `rng.sample(range n, 2)` interpretation: a pair of *distinct* indices
below `n` (for `n ≥ 2`), as `sample` guarantees. -/
def pySamplePair (k n : ℕ) : ℕ × ℕ :=
  let i := k % n
  let j0 := (k / n) % (n - 1)
  (i, if j0 < i then j0 else j0 + 1)

/-! ## NoiseConfig -/

/-- `clamp(prob, maximum=0.95)`. -/
def clamp (prob : ℚ) (maximum : ℚ := 95/100) : ℚ :=
  max 0 (min prob maximum)

/-- The literal `0.3` of `format_birthday`, given in normalized form so
that comparisons against it evaluate. -/
def threeTenths : ℚ := ⟨3, 10, by decide, by decide⟩

/-- Python `int()` truncation toward zero, on rationals. -/
def pyTrunc (q : ℚ) : ℤ :=
  if 0 ≤ q then (q.num.toNat / q.den : ℕ) else -(((-q.num).toNat / q.den : ℕ) : ℤ)

/-- The noise configuration: the eleven effect probabilities plus the
maximum date-shift magnitude (the source's config dictionary). -/
structure NoiseConfig where
  missing_prob : ℚ
  typo_prob : ℚ
  case_prob : ℚ
  swap_name_prob : ℚ
  char_swap_prob : ℚ
  whitespace_prob : ℚ
  suffix_prob : ℚ
  uid_noise_prob : ℚ
  date_shift_prob : ℚ
  date_format_prob : ℚ
  date_text_token_prob : ℚ
  max_date_shift_days : ℕ
deriving DecidableEq

/-- `build_noise_config(level)`. -/
def build_noise_config (level : ℚ) : NoiseConfig where
  missing_prob := clamp (3/100 * level)
  typo_prob := clamp (15/100 * level)
  case_prob := clamp (1/10 * level)
  swap_name_prob := clamp (4/100 * level)
  char_swap_prob := clamp (6/100 * level)
  whitespace_prob := clamp (12/100 * level)
  suffix_prob := clamp (5/100 * level)
  uid_noise_prob := clamp (6/100 * level)
  date_shift_prob := clamp (3/10 * level)
  date_format_prob := clamp (45/100 * level)
  date_text_token_prob := clamp (2/100 * level)
  max_date_shift_days := (max 1 (pyTrunc (12 * level))).toNat

/-! ## String helpers (ASCII model of the Python `str` methods used) -/

/-- ASCII `str.lower` on one character. -/
def pyLowerChar (c : Char) : Char :=
  if 'A' ≤ c ∧ c ≤ 'Z' then Char.ofNat (c.toNat + 32) else c

/-- ASCII `str.upper` on one character. -/
def pyUpperChar (c : Char) : Char :=
  if 'a' ≤ c ∧ c ≤ 'z' then Char.ofNat (c.toNat - 32) else c

/-- ASCII `str.lower`. -/
def pyLower (s : List Char) : List Char := s.map pyLowerChar

/-- ASCII `str.upper`. -/
def pyUpper (s : List Char) : List Char := s.map pyUpperChar

/-- ASCII `str.title`: upper-case every letter that follows a non-letter,
lower-case the other letters. -/
def pyTitleGo : Bool → List Char → List Char
  | _, [] => []
  | prevAlpha, c :: rest =>
    if c.isAlpha then
      (if prevAlpha then pyLowerChar c else pyUpperChar c) :: pyTitleGo true rest
    else c :: pyTitleGo false rest

/-- ASCII `str.title`. -/
def pyTitle (s : List Char) : List Char := pyTitleGo false s

/-- ASCII `str.capitalize`: first character upper-cased, the rest
lower-cased. -/
def pyCapitalize : List Char → List Char
  | [] => []
  | c :: rest => pyUpperChar c :: pyLower rest

/-- The lowercase alphabet used by `introduce_typo`. -/
def letters : List Char :=
  ['a','b','c','d','e','f','g','h','i','j','k','l','m',
   'n','o','p','q','r','s','t','u','v','w','x','y','z']

/-! ## Field mutators -/

/-- `introduce_typo(value, rng)`: a uniformly random index and one of
four operations (delete / insert / adjacent swap / replace); the source
falls through to the replace line when the operation is `swap` but the
value has length 1. -/
def introduce_typo (value : List Char) (g : Rng) : List Char × Rng :=
  if value = [] then (value, g)
  else
    let (k1, g) := takeNat g
    let idx := k1 % value.length
    let (k2, g) := takeNat g
    let op := pyChoiceIdx k2 4
    if op = 0 then (value.take idx ++ value.drop (idx + 1), g)
    else if op = 1 then
      let (k3, g) := takeNat g
      (value.take idx ++ letters.getD (pyChoiceIdx k3 26) 'a' :: value.drop idx, g)
    else if op = 2 ∧ value.length > 1 then
      let j := min (idx + 1) (value.length - 1)
      ((value.set idx (value.getD j ' ')).set j (value.getD idx ' '), g)
    else
      let (k3, g) := takeNat g
      (value.take idx ++ letters.getD (pyChoiceIdx k3 26) 'a' :: value.drop (idx + 1), g)

/-- `random_case(value, rng)`: one of lower / upper / title / capitalize. -/
def random_case (value : List Char) (g : Rng) : List Char × Rng :=
  if value = [] then (value, g)
  else
    let (k, g) := takeNat g
    let fn := pyChoiceIdx k 4
    (if fn = 0 then pyLower value
     else if fn = 1 then pyUpper value
     else if fn = 2 then pyTitle value
     else pyCapitalize value, g)

/-- `add_whitespace(value, rng)`: 0-2 leading and 0-2 trailing spaces,
drawn separately. -/
def add_whitespace (value : List Char) (g : Rng) : List Char × Rng :=
  if value = [] then (value, g)
  else
    let (a, g) := takeNat g
    let pre := List.replicate (a % 3) ' '
    let (b, g) := takeNat g
    let post := List.replicate (b % 3) ' '
    (pre ++ value ++ post, g)

/-- The fixed suffix list of `add_suffix`. -/
def suffixes : List (List Char) :=
  [[' ','J','r'], [' ','S','r'], [' ','I','I'], [' ','I','I','I'],
   ['-','S','m','i','t','h']]

/-- `add_suffix(value, rng)`. -/
def add_suffix (value : List Char) (g : Rng) : List Char × Rng :=
  if value = [] then (value, g)
  else
    let (k, g) := takeNat g
    (value ++ suffixes.getD (pyChoiceIdx k 5) [], g)

/-- `swap_two_characters(value, rng)`: swap two distinct sampled
positions; the `i == j` guard of the source is kept although `sample`
never produces equal positions. -/
def swap_two_characters (value : List Char) (g : Rng) : List Char × Rng :=
  if value.length < 2 then (value, g)
  else
    let (k, g) := takeNat g
    let ij := pySamplePair k value.length
    if ij.1 = ij.2 then (value, g)
    else
      ((value.set ij.1 (value.getD ij.2 ' ')).set ij.2 (value.getD ij.1 ' '), g)

/-- `mutate_name(value, rng, config)`: the six independently gated stages
in source order, short-circuiting to the empty string when the missing
gate fires. -/
def mutate_name (value : List Char) (g : Rng) (config : NoiseConfig) :
    List Char × Rng :=
  let (u0, g) := takeFloat g
  if u0 < config.missing_prob then ([], g)
  else
    let (u1, g) := takeFloat g
    let (value, g) := if u1 < config.char_swap_prob then swap_two_characters value g else (value, g)
    let (u2, g) := takeFloat g
    let (value, g) := if u2 < config.typo_prob then introduce_typo value g else (value, g)
    let (u3, g) := takeFloat g
    let (value, g) := if u3 < config.case_prob then random_case value g else (value, g)
    let (u4, g) := takeFloat g
    let (value, g) := if u4 < config.whitespace_prob then add_whitespace value g else (value, g)
    let (u5, g) := takeFloat g
    let (value, g) := if u5 < config.suffix_prob then add_suffix value g else (value, g)
    (value, g)

/-- `mutate_generic(value, rng, config)`: the same chain without the
suffix stage. -/
def mutate_generic (value : List Char) (g : Rng) (config : NoiseConfig) :
    List Char × Rng :=
  let (u0, g) := takeFloat g
  if u0 < config.missing_prob then ([], g)
  else
    let (u1, g) := takeFloat g
    let (value, g) := if u1 < config.char_swap_prob then swap_two_characters value g else (value, g)
    let (u2, g) := takeFloat g
    let (value, g) := if u2 < config.typo_prob then introduce_typo value g else (value, g)
    let (u3, g) := takeFloat g
    let (value, g) := if u3 < config.case_prob then random_case value g else (value, g)
    let (u4, g) := takeFloat g
    let (value, g) := if u4 < config.whitespace_prob then add_whitespace value g else (value, g)
    (value, g)

/-- A gated stage pipeline: for each `(p, f)` in order, draw a gate and
apply `f` to the current value exactly when the gate fires.  Used to
state the stage-order property of `mutate_name`. -/
def gatedStages : List (ℚ × (List Char → Rng → List Char × Rng)) →
    List Char → Rng → List Char × Rng
  | [], v, g => (v, g)
  | (p, f) :: rest, v, g =>
    let (u, g1) := takeFloat g
    if u < p then
      let (v1, g2) := f v g1
      gatedStages rest v1 g2
    else gatedStages rest v g1

/-- A single gated stage, as a function on value-generator pairs (used in
the stage-order proofs). -/
def stageStep (p : ℚ) (f : List Char → Rng → List Char × Rng)
    (vg : List Char × Rng) : List Char × Rng :=
  if (takeFloat vg.2).1 < p then f vg.1 (takeFloat vg.2).2
  else (vg.1, (takeFloat vg.2).2)

/-! ## Dates (model of Python `datetime` restricted to dates) -/

/-- A calendar date. Python's `datetime` keeps `1 ≤ year ≤ 9999`; we
carry the bounds as side conditions. -/
structure PyDate where
  year : ℕ
  month : ℕ
  day : ℕ
deriving DecidableEq

/-- Gregorian leap year. -/
def isLeap (y : ℕ) : Bool := y % 4 == 0 && (y % 100 != 0 || y % 400 == 0)

/-- Days in a month (0 for out-of-range months). -/
def daysInMonth (y m : ℕ) : ℕ :=
  if m = 1 ∨ m = 3 ∨ m = 5 ∨ m = 7 ∨ m = 8 ∨ m = 10 ∨ m = 12 then 31
  else if m = 4 ∨ m = 6 ∨ m = 9 ∨ m = 11 then 30
  else if m = 2 then (if isLeap y then 29 else 28)
  else 0

/-- Month and day are calendar-consistent (the year is unconstrained). -/
def ValidMD (d : PyDate) : Prop :=
  1 ≤ d.month ∧ d.month ≤ 12 ∧ 1 ≤ d.day ∧ d.day ≤ daysInMonth d.year d.month

/-- A value representable by Python's `datetime`. -/
def ValidDate (d : PyDate) : Prop :=
  ValidMD d ∧ 1 ≤ d.year ∧ d.year ≤ 9999

/-- Calendar successor. -/
def nextDay (d : PyDate) : PyDate :=
  if d.day < daysInMonth d.year d.month then ⟨d.year, d.month, d.day + 1⟩
  else if d.month < 12 then ⟨d.year, d.month + 1, 1⟩
  else ⟨d.year + 1, 1, 1⟩

/-- Calendar predecessor (clamped at year 0, which the overflow check
rejects anyway). -/
def prevDay (d : PyDate) : PyDate :=
  if 1 < d.day then ⟨d.year, d.month, d.day - 1⟩
  else if 1 < d.month then ⟨d.year, d.month - 1, daysInMonth d.year (d.month - 1)⟩
  else ⟨d.year - 1, 12, 31⟩

/-- `dt + timedelta(days=delta)` as iterated calendar steps. -/
def addDays (d : PyDate) (delta : ℤ) : PyDate :=
  if 0 ≤ delta then nextDay^[delta.toNat] d else prevDay^[(-delta).toNat] d

/-! ## Date rendering (`strftime`) -/

/-- The five output date formats of `format_birthday`; `parse_birthday`
uses the first three as its input formats. -/
inductive DFmt where
  | mdY   -- "%m/%d/%Y"
  | dmY   -- "%d/%m/%Y"
  | Ymd   -- "%Y-%m-%d"
  | mdY2  -- "%m-%d-%Y"
  | dbY   -- "%d %b %Y"
deriving DecidableEq

/-- Two-digit zero-padded rendering (`%m`, `%d`). -/
def pad2 (n : ℕ) : List Char :=
  if n < 10 then ['0', Nat.digitChar n]
  else [Nat.digitChar (n / 10), Nat.digitChar (n % 10)]

/-- Four-digit zero-padded rendering (`%Y`). -/
def pad4 (n : ℕ) : List Char :=
  [Nat.digitChar (n / 1000), Nat.digitChar (n / 100 % 10),
   Nat.digitChar (n / 10 % 10), Nat.digitChar (n % 10)]

/-- What `pad2 n` becomes after one zero-stripping pass (used only in
statements about `stripZeros`). -/
def unpad2 (n : ℕ) : List Char :=
  if n < 10 then [Nat.digitChar n] else pad2 n

/-- Month-name abbreviations (`%b`). -/
def monthAbbrs : List (List Char) :=
  [['J','a','n'], ['F','e','b'], ['M','a','r'], ['A','p','r'],
   ['M','a','y'], ['J','u','n'], ['J','u','l'], ['A','u','g'],
   ['S','e','p'], ['O','c','t'], ['N','o','v'], ['D','e','c']]

/-- `dt.strftime(fmt)` for the five formats. -/
def strftime (f : DFmt) (d : PyDate) : List Char :=
  match f with
  | .mdY => pad2 d.month ++ '/' :: (pad2 d.day ++ '/' :: pad4 d.year)
  | .dmY => pad2 d.day ++ '/' :: (pad2 d.month ++ '/' :: pad4 d.year)
  | .Ymd => pad4 d.year ++ '-' :: (pad2 d.month ++ '-' :: pad2 d.day)
  | .mdY2 => pad2 d.month ++ '-' :: (pad2 d.day ++ '-' :: pad4 d.year)
  | .dbY => pad2 d.day ++ ' ' :: (monthAbbrs.getD (d.month - 1) [] ++ ' ' :: pad4 d.year)

/-! ## The zero-stripping and separator substitutions -/

/-- A regex word character (`\w`, ASCII). -/
def isWordChar (c : Char) : Bool := c.isAlphanum || c == '_'

/-- One left-to-right pass of `re.sub(r"\b0(\d)", r"\1", s)`; the flag
records whether the previous original character was a word character
(false at the start of the string). -/
def stripGo : Bool → List Char → List Char
  | _, [] => []
  | _, [c] => [c]
  | prevW, c :: d :: rest =>
    if prevW = false ∧ c = '0' ∧ d.isDigit then d :: stripGo true rest
    else c :: stripGo (isWordChar c) (d :: rest)

/-- `re.sub(r"\b0(\d)", r"\1", s)`. -/
def stripZeros (s : List Char) : List Char := stripGo false s

/-- `formatted.replace("/", "-")`. -/
def slashToDash (s : List Char) : List Char :=
  s.map fun c => if c = '/' then '-' else c

/-- Undo the separator substitution (used only to state the amended
re-parse property). -/
def dashToSlash (s : List Char) : List Char :=
  s.map fun c => if c = '-' then '/' else c

/-! ## Date parsing (`strptime` for the five formats) -/

/-- Split a character list at every occurrence of `sep` (like
`str.split(sep)`: empty fields are kept). -/
def splitSep (sep : Char) : List Char → List (List Char)
  | [] => [[]]
  | c :: rest =>
    if c = sep then [] :: splitSep sep rest
    else
      match splitSep sep rest with
      | t :: ts => (c :: t) :: ts
      | [] => [[c]]

/-- Numeric value of a digit character. -/
def charVal (c : Char) : ℕ := c.toNat - '0'.toNat

/-- Value of an all-digit token (one or more digits). -/
def tokNat (l : List Char) : Option ℕ :=
  if l ≠ [] ∧ l.all Char.isDigit then
    some (l.foldl (fun a c => 10 * a + charVal c) 0)
  else none

/-- The `%m` directive: CPython's regex `(1[0-2]|0[1-9]|[1-9])`, i.e. one
or two digits with value 1-12. -/
def mTok (l : List Char) : Option ℕ :=
  match tokNat l with
  | some v => if 1 ≤ v ∧ v ≤ 12 ∧ l.length ≤ 2 then some v else none
  | none => none

/-- The `%d` directive: CPython's regex `(3[01]|[12]\d|0[1-9]|[1-9])`,
i.e. one or two digits with value 1-31. -/
def dTok (l : List Char) : Option ℕ :=
  match tokNat l with
  | some v => if 1 ≤ v ∧ v ≤ 31 ∧ l.length ≤ 2 then some v else none
  | none => none

/-- The `%Y` directive: exactly four digits. -/
def yTok (l : List Char) : Option ℕ :=
  match tokNat l with
  | some v => if l.length = 4 then some v else none
  | none => none

/-- The `%b` directive: a month abbreviation, case-insensitively. -/
def bTok (l : List Char) : Option ℕ :=
  match monthAbbrs.findIdx? (fun a => pyLower a == pyLower l) with
  | some i => some (i + 1)
  | none => none

/-- `datetime(year, month, day)`: `ValueError` (here `none`) unless the
combination is a representable calendar date. -/
def mkValid (y m d : ℕ) : Option PyDate :=
  if 1 ≤ y ∧ y ≤ 9999 ∧ 1 ≤ m ∧ m ≤ 12 ∧ 1 ≤ d ∧ d ≤ daysInMonth y m
  then some ⟨y, m, d⟩ else none

/-- `datetime.strptime(s, fmt)` for the five formats, or `none` on
`ValueError`. -/
def strptime (f : DFmt) (s : List Char) : Option PyDate :=
  match f with
  | .mdY =>
    match splitSep '/' s with
    | [a, b, c] => do
      let m ← mTok a
      let d ← dTok b
      let y ← yTok c
      mkValid y m d
    | _ => none
  | .dmY =>
    match splitSep '/' s with
    | [a, b, c] => do
      let d ← dTok a
      let m ← mTok b
      let y ← yTok c
      mkValid y m d
    | _ => none
  | .Ymd =>
    match splitSep '-' s with
    | [a, b, c] => do
      let y ← yTok a
      let m ← mTok b
      let d ← dTok c
      mkValid y m d
    | _ => none
  | .mdY2 =>
    match splitSep '-' s with
    | [a, b, c] => do
      let m ← mTok a
      let d ← dTok b
      let y ← yTok c
      mkValid y m d
    | _ => none
  | .dbY =>
    match splitSep ' ' s with
    | [a, b, c] => do
      let d ← dTok a
      let m ← bTok b
      let y ← yTok c
      mkValid y m d
    | _ => none

/-- `parse_birthday(value)`: the three input formats tried in source
order, first success wins, `None` when all fail. -/
def parse_birthday (s : List Char) : Option PyDate :=
  match strptime .mdY s with
  | some d => some d
  | none =>
    match strptime .dmY s with
    | some d => some d
    | none => strptime .Ymd s

/-! ## `format_birthday` -/

/-- The four placeholder tokens. -/
def dateTokens : List (List Char) :=
  [['u','n','k','n','o','w','n'], ['n','/','a'],
   ['s','e','e',' ','n','o','t','e','s'], ['?','?']]

/-- The output-format list of `format_birthday`, in source order. -/
def outFormats : List DFmt := [.mdY, .dmY, .Ymd, .mdY2, .dbY]

/-- The rendering tail of `format_birthday`: choose a format, render,
then optionally strip leading zeros and substitute separators. -/
def renderBirthday (dt : PyDate) (g : Rng) (config : NoiseConfig) :
    List Char × Rng :=
  let (k, g) := takeNat g
  let fmt := outFormats.getD (pyChoiceIdx k 5) .mdY
  let formatted := strftime fmt dt
  let (u3, g) := takeFloat g
  if u3 < config.date_format_prob then
    let formatted := stripZeros formatted
    let (u4, g) := takeFloat g
    if u4 < threeTenths then (slashToDash formatted, g) else (formatted, g)
  else (formatted, g)

/-- `format_birthday(dt, rng, config)`.  The result is `none` exactly
when `dt + timedelta(days=delta)` leaves Python's representable year
range and raises `OverflowError`. -/
def format_birthday (dt : PyDate) (g : Rng) (config : NoiseConfig) :
    Option (List Char) × Rng :=
  let (u1, g) := takeFloat g
  if u1 < config.date_text_token_prob then
    let (k, g) := takeNat g
    (some (dateTokens.getD (pyChoiceIdx k 4) []), g)
  else
    let (u2, g) := takeFloat g
    if u2 < config.date_shift_prob then
      let (k, g) := takeNat g
      let delta := pyRandint (-(config.max_date_shift_days : ℤ))
        (config.max_date_shift_days : ℤ) k
      let dt2 := addDays dt delta
      if 1 ≤ dt2.year ∧ dt2.year ≤ 9999 then
        let (s, g) := renderBirthday dt2 g config
        (some s, g)
      else (none, g)
    else
      let (s, g) := renderBirthday dt g config
      (some s, g)

/-! ## Records (Python dicts with insertion order) -/

/-- A record: an association list from column name to value, with
Python-dict semantics (update replaces the first binding, a fresh key is
appended at the end). -/
abbrev Row := List (String × List Char)

/-- `row.get(k)` as an `Option` (dict lookup). -/
def rowGet : Row → String → Option (List Char)
  | [], _ => none
  | (k', v) :: rest, k => if k' = k then some v else rowGet rest k

/-- `row[k] = v` (dict update / insert). -/
def rowSet : Row → String → List Char → Row
  | [], k, v => [(k, v)]
  | (k', v') :: rest, k, v =>
    if k' = k then (k, v) :: rest else (k', v') :: rowSet rest k v

/-- Leading-match test used by `strHas`. -/
def leadMatch : List Char → List Char → Bool
  | [], _ => true
  | _ :: _, [] => false
  | a :: as, b :: bs => a == b && leadMatch as bs

/-- Substring test (`needle in hay` on Python strings). -/
def strHas : List Char → List Char → Bool
  | hay, needle =>
    match hay with
    | [] => needle.isEmpty
    | _ :: rest => leadMatch needle hay || strHas rest needle

/-- Lower-cased column name, as a character list. -/
def colLower (col : String) : List Char := pyLower col.data

/-! ## Row mutation engine -/

/-- The per-column loop of `mutate_encoded_row`: classify each column of
`fields` by name and apply the matching mutator, reading the original
`row` and writing the accumulator `m`.  The result is `none` when a date
shift raises `OverflowError`. -/
def mutCols (row : Row) (config : NoiseConfig) :
    List String → Row → Rng → Option (Row × Rng)
  | [], m, g => some (m, g)
  | col :: rest, m, g =>
    let val := (rowGet row col).getD []
    if col = "GivenName" ∨ col = "Surname" then
      let (v, g1) := mutate_name val g config
      mutCols row config rest (rowSet m col v) g1
    else if strHas (colLower col) ['b','i','r','t','h']
        || strHas (colLower col) ['d','a','t','e'] then
      match parse_birthday val with
      | some dtv =>
        match format_birthday dtv g config with
        | (some s, g1) => mutCols row config rest (rowSet m col s) g1
        | (none, _) => none
      | none =>
        let (u, g1) := takeFloat g
        if u < config.missing_prob then mutCols row config rest (rowSet m col []) g1
        else mutCols row config rest m g1
    else
      let (v, g1) := mutate_generic val g config
      mutCols row config rest (rowSet m col v) g1

/-- The trailing given-name/surname exchange of `mutate_encoded_row`: the
gate is drawn from the generator *before* the column-existence test. -/
def swapNameStep (m : Row) (g : Rng) (config : NoiseConfig) : Row × Rng :=
  let (u, g1) := takeFloat g
  if u < config.swap_name_prob ∧ (rowGet m "GivenName").isSome ∧
      (rowGet m "Surname").isSome then
    let gv := (rowGet m "GivenName").getD []
    let sv := (rowGet m "Surname").getD []
    (rowSet (rowSet m "GivenName" sv) "Surname" gv, g1)
  else (m, g1)

/-- `mutate_encoded_row(row, fieldnames, rng, config)`: mutate every
column except the last two, then run the name-swap step. -/
def mutate_encoded_row (row : Row) (fieldnames : List String) (g : Rng)
    (config : NoiseConfig) : Option (Row × Rng) :=
  let mutate_fields := fieldnames.dropLast.dropLast
  match mutCols row config mutate_fields row g with
  | some (m, g1) => some (swapNameStep m g1 config)
  | none => none

/-! ## Record swap engine -/

/-- `range(0, len(indices) - 1, 2)` pairing: consecutive disjoint pairs,
discarding a trailing unpaired index. -/
def chunkPairs : List ℕ → List (ℕ × ℕ)
  | a :: b :: rest => (a, b) :: chunkPairs rest
  | _ => []

/-- All indices occurring in a pair list. -/
def pairIndices (ps : List (ℕ × ℕ)) : List ℕ :=
  ps.flatMap fun q => [q.1, q.2]

/-- Exchange the `enc` values of rows `i` and `j` (both reads happen
before both writes, as in the tuple assignment of the source); `none`
models the `KeyError`/`IndexError` the source would raise. -/
def swapAt (rows : List Row) (i j : ℕ) (enc : String) : Option (List Row) := do
  let ri ← rows[i]?
  let rj ← rows[j]?
  let vi ← rowGet ri enc
  let vj ← rowGet rj enc
  pure ((rows.set i (rowSet ri enc vj)).set j (rowSet rj enc vi))

/-- The per-pair loop of `apply_encoding_swaps`: one gate draw per pair,
swapping exactly when the draw is below `swap_prob`. -/
def foldPairs (p : ℚ) (enc : String) :
    List (ℕ × ℕ) → List Row → Rng → Option (List Row × Rng)
  | [], rows, g => some (rows, g)
  | (i, j) :: ps, rows, g =>
    let (u, g1) := takeFloat g
    if p ≤ u then foldPairs p enc ps rows g1
    else
      match swapAt rows i j enc with
      | some rows1 => foldPairs p enc ps rows1 g1
      | none => none

/-- `apply_encoding_swaps(rows, enc_col, rng, swap_prob)` (functional
rendering of the in-place mutation). -/
def apply_encoding_swaps (rows : List Row) (enc : String) (g : Rng)
    (p : ℚ) : Option (List Row × Rng) :=
  match rows with
  | [] => some (rows, g)
  | r0 :: _ =>
    if rowGet r0 enc = none ∨ p ≤ 0 then some (rows, g)
    else
      let (indices, g1) := takeShuffle g rows.length
      foldPairs p enc (chunkPairs indices) rows g1

/-! # Theorems -/

/-! ## Generic helper lemmas -/

theorem clamp_nonneg (x : ℚ) : 0 ≤ clamp x := le_max_left 0 _

theorem clamp_le (x : ℚ) : clamp x ≤ 95/100 :=
  max_le (by norm_num) (min_le_right _ _)

theorem pyTrunc_eq_floor (q : ℚ) (hq : 0 ≤ q) : pyTrunc q = ⌊q⌋ := by
  have hnum : 0 ≤ q.num := Rat.num_nonneg.2 hq
  rw [pyTrunc, if_pos hq, Rat.floor_def]
  rw [Int.ofNat_ediv, Int.toNat_of_nonneg hnum]

/-- C3: for every noise level `L ≥ 0`, `build_noise_config L` maps each
effect key to `max 0 (min (c * L) 0.95)` with its fixed coefficient, every
probability lies in `[0, 0.95]`, and `max_date_shift_days` equals
`max 1 ⌊12 * L⌋`, hence is at least 1. -/
theorem build_noise_config_spec (L : ℚ) (hL : 0 ≤ L) :
    ((build_noise_config L).missing_prob = max 0 (min (3/100 * L) (95/100)) ∧
     (build_noise_config L).typo_prob = max 0 (min (15/100 * L) (95/100)) ∧
     (build_noise_config L).case_prob = max 0 (min (10/100 * L) (95/100)) ∧
     (build_noise_config L).swap_name_prob = max 0 (min (4/100 * L) (95/100)) ∧
     (build_noise_config L).char_swap_prob = max 0 (min (6/100 * L) (95/100)) ∧
     (build_noise_config L).whitespace_prob = max 0 (min (12/100 * L) (95/100)) ∧
     (build_noise_config L).suffix_prob = max 0 (min (5/100 * L) (95/100)) ∧
     (build_noise_config L).uid_noise_prob = max 0 (min (6/100 * L) (95/100)) ∧
     (build_noise_config L).date_shift_prob = max 0 (min (30/100 * L) (95/100)) ∧
     (build_noise_config L).date_format_prob = max 0 (min (45/100 * L) (95/100)) ∧
     (build_noise_config L).date_text_token_prob = max 0 (min (2/100 * L) (95/100))) ∧
    (∀ p ∈ [(build_noise_config L).missing_prob, (build_noise_config L).typo_prob,
            (build_noise_config L).case_prob, (build_noise_config L).swap_name_prob,
            (build_noise_config L).char_swap_prob, (build_noise_config L).whitespace_prob,
            (build_noise_config L).suffix_prob, (build_noise_config L).uid_noise_prob,
            (build_noise_config L).date_shift_prob, (build_noise_config L).date_format_prob,
            (build_noise_config L).date_text_token_prob],
        0 ≤ p ∧ p ≤ 95/100) ∧
    ((build_noise_config L).max_date_shift_days : ℤ) = max 1 ⌊(12 : ℚ) * L⌋ ∧
    1 ≤ (build_noise_config L).max_date_shift_days := by
  have h12 : (0 : ℚ) ≤ 12 * L := by positivity
  have htr : pyTrunc (12 * L) = ⌊(12 : ℚ) * L⌋ := pyTrunc_eq_floor _ h12
  have hcase : (10 : ℚ)/100 = 1/10 := by norm_num
  have hshift : (30 : ℚ)/100 = 3/10 := by norm_num
  have hmd : (build_noise_config L).max_date_shift_days =
      (max 1 (pyTrunc (12 * L))).toNat := rfl
  have h1 : (1 : ℤ) ≤ max 1 (pyTrunc (12 * L)) := le_max_left 1 _
  refine ⟨⟨rfl, rfl, by rw [hcase]; exact rfl, rfl, rfl, rfl, rfl, rfl,
      by rw [hshift]; exact rfl, rfl, rfl⟩, ?_, ?_, ?_⟩
  · intro p hp
    simp only [List.mem_cons, List.not_mem_nil, or_false] at hp
    rcases hp with h | h | h | h | h | h | h | h | h | h | h <;>
      subst h <;> exact ⟨clamp_nonneg _, clamp_le _⟩
  · rw [hmd, ← htr]
    omega
  · rw [hmd]
    omega

/-- Witness for C3 at `L = 1`. -/
theorem build_noise_config_spec_witness :
    (0 : ℚ) ≤ 1 ∧ 1 ≤ (build_noise_config 1).max_date_shift_days :=
  ⟨by norm_num, (build_noise_config_spec 1 (by norm_num)).2.2.2⟩

/-! ## C8: introduce_typo changes the length by at most one -/

/-- C8: `introduce_typo` changes the string length by at most 1, and
returns the value unchanged on empty input. -/
theorem introduce_typo_len (v : List Char) (g : Rng) :
    ((introduce_typo v g).1.length ≤ v.length + 1 ∧
     v.length ≤ (introduce_typo v g).1.length + 1) ∧
    (v = [] → introduce_typo v g = (v, g)) := by
  constructor
  · by_cases hv : v = []
    · subst hv; simp [introduce_typo]
    · have hn : 0 < v.length := List.length_pos.2 hv
      rw [introduce_typo, if_neg hv]
      rcases hk1 : takeNat g with ⟨k1, g1⟩
      simp only [hk1]
      rcases hk2 : takeNat g1 with ⟨k2, g2⟩
      simp only [hk2]
      have hidx : k1 % v.length < v.length := Nat.mod_lt _ hn
      split_ifs with h0 h1 h2
      · simp only [List.length_append, List.length_take, List.length_drop]
        omega
      · rcases hk3 : takeNat g2 with ⟨k3, g3⟩
        simp only [hk3, List.length_append, List.length_take,
          List.length_cons, List.length_drop]
        omega
      · simp only [List.length_set]
        omega
      · rcases hk3 : takeNat g2 with ⟨k3, g3⟩
        simp only [hk3, List.length_append, List.length_take,
          List.length_cons, List.length_drop]
        omega
  · intro h
    rw [introduce_typo, if_pos h]

/-- Closed witness for C8 on a concrete input. -/
theorem introduce_typo_len_witness :
    ([] : List Char) = [] ∧ introduce_typo [] [Draw.nat 3] = ([], [Draw.nat 3]) :=
  ⟨rfl, (introduce_typo_len [] [Draw.nat 3]).2 rfl⟩

/-! ## C9: swap_two_characters permutes the characters -/

theorem cons_set_perm (x : Char) :
    ∀ (t : List Char) (j : ℕ), j < t.length →
      (t.getD j ' ' :: t.set j x).Perm (x :: t) := by
  intro t
  induction t with
  | nil => intro j hj; simp at hj
  | cons a s ih =>
    intro j hj
    cases j with
    | zero =>
      simp only [List.getD_cons_zero, List.set_cons_zero]
      exact List.Perm.swap x a s
    | succ j' =>
      have hj' : j' < s.length := by simpa using hj
      simp only [List.getD_cons_succ, List.set_cons_succ]
      exact (List.Perm.swap a _ _).trans
        (((ih j' hj').cons a).trans (List.Perm.swap x a s))

theorem set_set_getD_perm :
    ∀ (l : List Char) (i j : ℕ), i < l.length → j < l.length →
      ((l.set i (l.getD j ' ')).set j (l.getD i ' ')).Perm l := by
  intro l
  induction l with
  | nil => intro i j hi; simp at hi
  | cons a t ih =>
    intro i j hi hj
    cases i with
    | zero =>
      cases j with
      | zero => simp
      | succ j' =>
        have hj' : j' < t.length := by simpa using hj
        simp only [List.getD_cons_succ, List.getD_cons_zero,
          List.set_cons_zero, List.set_cons_succ]
        exact cons_set_perm a t j' hj'
    | succ i' =>
      have hi' : i' < t.length := by simpa using hi
      cases j with
      | zero =>
        simp only [List.getD_cons_succ, List.getD_cons_zero,
          List.set_cons_zero, List.set_cons_succ]
        exact cons_set_perm a t i' hi'
      | succ j' =>
        have hj' : j' < t.length := by simpa using hj
        simp only [List.getD_cons_succ, List.set_cons_succ]
        exact (ih i' j' hi' hj').cons a

/-- C9: `swap_two_characters` returns a permutation of the input's
characters, and returns the input unchanged when its length is below 2. -/
theorem swap_two_characters_perm (v : List Char) (g : Rng) :
    ((swap_two_characters v g).1.Perm v) ∧
    (v.length < 2 → swap_two_characters v g = (v, g)) := by
  constructor
  · by_cases hlen : v.length < 2
    · rw [swap_two_characters, if_pos hlen]
    · rw [swap_two_characters, if_neg hlen]
      push_neg at hlen
      have hn : 0 < v.length := by omega
      have hn1 : 0 < v.length - 1 := by omega
      rcases hk : takeNat g with ⟨k, g1⟩
      simp only [hk]
      rcases hp : pySamplePair k v.length with ⟨i, j⟩
      simp only [hp]
      have hij : i < v.length ∧ j < v.length := by
        have h1 : k % v.length < v.length := Nat.mod_lt _ hn
        have h2 : k / v.length % (v.length - 1) < v.length - 1 :=
          Nat.mod_lt _ hn1
        rw [pySamplePair] at hp
        simp only [Prod.mk.injEq] at hp
        rcases hp with ⟨hpi, hpj⟩
        subst hpi
        split at hpj <;> omega
      split_ifs with heq
      · exact List.Perm.refl v
      · exact set_set_getD_perm v i j hij.1 hij.2
  · intro h
    rw [swap_two_characters, if_pos h]

/-- Closed witness for C9 on a concrete input. -/
theorem swap_two_characters_perm_witness :
    ['z'].length < 2 ∧ swap_two_characters ['z'] [Draw.nat 5] = (['z'], [Draw.nat 5]) :=
  ⟨by decide, (swap_two_characters_perm ['z'] [Draw.nat 5]).2 (by decide)⟩

/-! ## C7: parse_birthday tries the three input formats in order -/

/-- C7: `parse_birthday` attempts `%m/%d/%Y`, `%d/%m/%Y`, `%Y-%m-%d` in
that order and returns the first success (so a value valid under the
first two formats is interpreted as month/day/year), and returns the
`none` sentinel when all three fail. -/
theorem parse_birthday_order (v : List Char) :
    (∀ d, strptime .mdY v = some d → parse_birthday v = some d) ∧
    (strptime .mdY v = none → ∀ d, strptime .dmY v = some d →
      parse_birthday v = some d) ∧
    (strptime .mdY v = none → strptime .dmY v = none →
      parse_birthday v = strptime .Ymd v) := by
  refine ⟨?_, ?_, ?_⟩
  · intro d h
    rw [parse_birthday, h]
  · intro h1 d h2
    rw [parse_birthday, h1, h2]
  · intro h1 h2
    rw [parse_birthday, h1, h2]

/-- Closed witness for C7: `"01/02/1990"` is valid under both slash
formats and is parsed as January 2nd. -/
theorem parse_birthday_order_witness :
    strptime .mdY ("01/02/1990".data) = some ⟨1990, 1, 2⟩ ∧
    strptime .dmY ("01/02/1990".data) = some ⟨1990, 2, 1⟩ ∧
    parse_birthday ("01/02/1990".data) = some ⟨1990, 1, 2⟩ :=
  ⟨by decide, by decide,
    (parse_birthday_order ("01/02/1990".data)).1 ⟨1990, 1, 2⟩ (by decide)⟩

/-! ## C6: mutate_name stage order and short-circuit -/

theorem gatedStages_nil (v : List Char) (g : Rng) :
    gatedStages [] v g = (v, g) := rfl

theorem gatedStages_cons (p : ℚ) (f : List Char → Rng → List Char × Rng)
    (rest : List (ℚ × (List Char → Rng → List Char × Rng)))
    (v : List Char) (g : Rng) :
    gatedStages ((p, f) :: rest) v g =
      gatedStages rest (stageStep p f (v, g)).1 (stageStep p f (v, g)).2 := by
  rw [gatedStages, stageStep]
  rcases h : takeFloat g with ⟨u, g1⟩
  simp only [h]
  by_cases hu : u < p
  · simp only [hu, if_true]
  · simp only [hu, if_false]

/-- One mutator stage of the source's let-chain equals `stageStep`
applied to the incoming value-generator pair. -/
theorem stage_of_chain (p : ℚ) (f : List Char → Rng → List Char × Rng)
    (v : List Char) (g : Rng) (u : ℚ) (g1 : Rng) (h : takeFloat g = (u, g1)) :
    (if u < p then f v g1 else (v, g1)) = stageStep p f (v, g) := by
  rw [stageStep]
  simp only [h]

/-- C6: `mutate_name` draws the missing gate first and, when it fires,
returns the empty string immediately with no further draws; otherwise it
runs the gated pipeline char-swap, typo, case, whitespace, suffix in that
exact order, each stage applied to the preceding stages' output. -/
theorem mutate_name_stage_order (v : List Char) (config : NoiseConfig)
    (g : Rng) (u : ℚ) (g1 : Rng) (h : takeFloat g = (u, g1)) :
    (u < config.missing_prob → mutate_name v g config = ([], g1)) ∧
    (¬ u < config.missing_prob →
      mutate_name v g config = gatedStages
        [(config.char_swap_prob, swap_two_characters),
         (config.typo_prob, introduce_typo),
         (config.case_prob, random_case),
         (config.whitespace_prob, add_whitespace),
         (config.suffix_prob, add_suffix)] v g1) := by
  constructor
  · intro hu
    rw [mutate_name, h]
    simp only [hu, if_true]
  · intro hu
    rw [mutate_name, h]
    simp only [hu, if_false]
    simp only [gatedStages_cons, gatedStages_nil, Prod.mk.eta]
    rcases h1 : takeFloat g1 with ⟨u1, ga⟩
    simp only [h1]
    rcases hS1 : stageStep config.char_swap_prob swap_two_characters (v, g1)
      with ⟨v1, gb⟩
    rw [stage_of_chain config.char_swap_prob swap_two_characters v g1 u1 ga h1, hS1]
    rcases h2 : takeFloat gb with ⟨u2, gc⟩
    simp only [h2]
    rcases hS2 : stageStep config.typo_prob introduce_typo (v1, gb) with ⟨v2, gd⟩
    rw [stage_of_chain config.typo_prob introduce_typo v1 gb u2 gc h2, hS2]
    rcases h3 : takeFloat gd with ⟨u3, ge⟩
    simp only [h3]
    rcases hS3 : stageStep config.case_prob random_case (v2, gd) with ⟨v3, gf⟩
    rw [stage_of_chain config.case_prob random_case v2 gd u3 ge h3, hS3]
    rcases h4 : takeFloat gf with ⟨u4, gg⟩
    simp only [h4]
    rcases hS4 : stageStep config.whitespace_prob add_whitespace (v3, gf)
      with ⟨v4, gh⟩
    rw [stage_of_chain config.whitespace_prob add_whitespace v3 gf u4 gg h4, hS4]
    rcases h5 : takeFloat gh with ⟨u5, gi⟩
    simp only [h5]
    rcases hS5 : stageStep config.suffix_prob add_suffix (v4, gh) with ⟨v5, gj⟩
    rw [stage_of_chain config.suffix_prob add_suffix v4 gh u5 gi h5, hS5]

/-- Closed witness for C6: a firing missing gate empties the value after
exactly one draw. -/
theorem mutate_name_stage_order_witness :
    takeFloat [Draw.flt 0] = (0, []) ∧ (0 : ℚ) < 1 ∧
    mutate_name ['B','o','b'] [Draw.flt 0] ⟨1,0,0,0,0,0,0,0,0,0,0,1⟩ = ([], []) :=
  ⟨rfl, by norm_num,
    (mutate_name_stage_order ['B','o','b'] ⟨1,0,0,0,0,0,0,0,0,0,0,1⟩
      [Draw.flt 0] 0 [] rfl).1 (by norm_num)⟩

/-! ## C10: the swap-name gate always consumes one draw -/

/-- C10: the name-swap step of `mutate_encoded_row` draws its gate from
the shared generator before the column-existence test, so it consumes
exactly one draw for every record, whether or not `GivenName` and
`Surname` exist; and `mutate_encoded_row` finishes with exactly this
step. -/
theorem swap_name_gate_consumption :
    (∀ (m : Row) (g : Rng) (config : NoiseConfig),
      (swapNameStep m g config).2 = (takeFloat g).2) ∧
    (∀ (row : Row) (fieldnames : List String) (g : Rng) (config : NoiseConfig),
      mutate_encoded_row row fieldnames g config =
        (mutCols row config fieldnames.dropLast.dropLast row g).map
          (fun p => swapNameStep p.1 p.2 config)) := by
  constructor
  · intro m g config
    rw [swapNameStep]
    rcases h : takeFloat g with ⟨u, g1⟩
    simp only [h]
    split_ifs <;> rfl
  · intro row fieldnames g config
    rw [mutate_encoded_row]
    rcases h : mutCols row config fieldnames.dropLast.dropLast row g with _ | ⟨m, g1⟩
    · rfl
    · rfl

/-! ## Row helper lemmas -/

theorem rowGet_rowSet_same (m : Row) (k : String) (v : List Char) :
    rowGet (rowSet m k v) k = some v := by
  induction m with
  | nil => simp [rowSet, rowGet]
  | cons p rest ih =>
    rw [rowSet]
    by_cases h : p.1 = k
    · rw [if_pos h, rowGet, if_pos rfl]
    · rw [if_neg h, rowGet, if_neg h]
      exact ih

theorem rowGet_rowSet_ne (m : Row) (k k' : String) (v : List Char)
    (h : k ≠ k') : rowGet (rowSet m k v) k' = rowGet m k' := by
  induction m with
  | nil => simp [rowSet, rowGet, h]
  | cons p rest ih =>
    rw [rowSet]
    by_cases hp : p.1 = k
    · rw [if_pos hp, rowGet, if_neg h, rowGet, if_neg]
      rw [hp]; exact h
    · rw [if_neg hp, rowGet, rowGet]
      by_cases hp' : p.1 = k'
      · rw [if_pos hp', if_pos hp']
      · rw [if_neg hp', if_neg hp']
        exact ih

/-- `mutCols` never writes a key outside its column list. -/
theorem mutCols_frame (row : Row) (config : NoiseConfig) (k : String) :
    ∀ (cols : List String) (m : Row) (g : Rng) (m' : Row) (g' : Rng),
      k ∉ cols → mutCols row config cols m g = some (m', g') →
      rowGet m' k = rowGet m k := by
  intro cols
  induction cols with
  | nil =>
    intro m g m' g' _ h
    rw [mutCols] at h
    simp only [Option.some.injEq, Prod.mk.injEq] at h
    rw [h.1]
  | cons col rest ih =>
    intro m g m' g' hk h
    have hkcol : k ≠ col := fun hkc => hk (hkc ▸ List.mem_cons_self col rest)
    have hkrest : k ∉ rest := fun hr => hk (List.mem_cons_of_mem col hr)
    rw [mutCols] at h
    by_cases hname : col = "GivenName" ∨ col = "Surname"
    · rw [if_pos hname] at h
      rcases hmn : mutate_name ((rowGet row col).getD []) g config with ⟨v, g1⟩
      rw [hmn] at h
      have := ih _ _ _ _ hkrest h
      rw [this, rowGet_rowSet_ne _ _ _ _ (Ne.symm hkcol)]
    · rw [if_neg hname] at h
      by_cases hdate : (strHas (colLower col) ['b','i','r','t','h']
          || strHas (colLower col) ['d','a','t','e']) = true
      · rw [if_pos hdate] at h
        rcases hpb : parse_birthday ((rowGet row col).getD []) with _ | dtv
        · simp only [hpb] at h
          rcases hf : takeFloat g with ⟨u, g1⟩
          simp only [hf] at h
          by_cases hu : u < config.missing_prob
          · rw [if_pos hu] at h
            have := ih _ _ _ _ hkrest h
            rw [this, rowGet_rowSet_ne _ _ _ _ (Ne.symm hkcol)]
          · rw [if_neg hu] at h
            exact ih _ _ _ _ hkrest h
        · simp only [hpb] at h
          rcases hfb : format_birthday dtv g config with ⟨s?, g1⟩
          simp only [hfb] at h
          rcases s? with _ | s
          · exact absurd h (by simp)
          · have := ih _ _ _ _ hkrest h
            rw [this, rowGet_rowSet_ne _ _ _ _ (Ne.symm hkcol)]
      · rw [if_neg hdate] at h
        rcases hmg : mutate_generic ((rowGet row col).getD []) g config with ⟨v, g1⟩
        rw [hmg] at h
        have := ih _ _ _ _ hkrest h
        rw [this, rowGet_rowSet_ne _ _ _ _ (Ne.symm hkcol)]

/-- The name-swap step never writes a key other than `GivenName` and
`Surname`. -/
theorem swapNameStep_frame (m : Row) (g : Rng) (config : NoiseConfig)
    (k : String) (h1 : k ≠ "GivenName") (h2 : k ≠ "Surname") :
    rowGet (swapNameStep m g config).1 k = rowGet m k := by
  rw [swapNameStep]
  rcases hf : takeFloat g with ⟨u, g1⟩
  simp only [hf]
  split_ifs with hc
  · rw [rowGet_rowSet_ne _ _ _ _ (Ne.symm h2),
      rowGet_rowSet_ne _ _ _ _ (Ne.symm h1)]
  · rfl

/-- C1 (amended): for every record, schema, generator state and config,
if the record survives mutation, then the value of each of the last two
columns by position is preserved exactly, provided that column's name
does not also occur among the first `n - 2` (mutated) columns and is
neither `GivenName` nor `Surname`. -/
theorem mutate_encoded_row_trailing (row : Row) (fieldnames : List String)
    (g : Rng) (config : NoiseConfig) (k : String) (r : Row) (g' : Rng)
    (hlen : 2 ≤ fieldnames.length)
    (hk : k = fieldnames.getD (fieldnames.length - 2) "" ∨
          k = fieldnames.getD (fieldnames.length - 1) "")
    (hnotmut : k ∉ fieldnames.dropLast.dropLast)
    (hGN : k ≠ "GivenName") (hSN : k ≠ "Surname")
    (hres : mutate_encoded_row row fieldnames g config = some (r, g')) :
    rowGet r k = rowGet row k := by
  rw [mutate_encoded_row] at hres
  rcases hmc : mutCols row config fieldnames.dropLast.dropLast row g
    with _ | ⟨m, g1⟩
  · rw [hmc] at hres
    exact absurd hres (by simp)
  · rw [hmc] at hres
    simp only [Option.some.injEq] at hres
    have hframe := mutCols_frame row config k _ _ _ _ _ hnotmut hmc
    have hswap := swapNameStep_frame m g1 config k hGN hSN
    have : (swapNameStep m g1 config).1 = r := by rw [hres]
    rw [← this, hswap, hframe]

/-- Counterexample to C1 as stated: with schema
`["GivenName", "Surname"]` the last two columns by position *are* the
name columns, and a firing swap-name gate exchanges their values, so the
returned record's last column differs from the input. -/
theorem mutate_encoded_row_trailing_cex :
    mutate_encoded_row [("GivenName", ['a']), ("Surname", ['b'])]
        ["GivenName", "Surname"] [Draw.flt 0] ⟨0,0,0,1,0,0,0,0,0,0,0,1⟩ =
      some ([("GivenName", ['b']), ("Surname", ['a'])], []) ∧
    ["GivenName", "Surname"].getD (2 - 1) "" = "Surname" ∧
    rowGet [("GivenName", ['b']), ("Surname", ['a'])] "Surname" ≠
      rowGet [("GivenName", ['a']), ("Surname", ['b'])] "Surname" := by
  refine ⟨by decide, by decide, by decide⟩

/-- Closed witness for the amended C1. -/
theorem mutate_encoded_row_trailing_witness :
    rowGet [("a", ['x']), ("enc", ['E']), ("uid", ['U'])] "uid" =
      rowGet [("a", ['x']), ("enc", ['E']), ("uid", ['U'])] "uid" := by
  have h := mutate_encoded_row_trailing
    [("a", ['x']), ("enc", ['E']), ("uid", ['U'])] ["a", "enc", "uid"]
    [] ⟨0,0,0,0,0,0,0,0,0,0,0,1⟩ "uid"
    [("a", ['x']), ("enc", ['E']), ("uid", ['U'])] []
    (by decide) (Or.inr (by decide)) (by decide) (by decide) (by decide)
    (by decide)
  exact h

/-! ## Swap-engine helper lemmas -/

theorem swapAt_spec (rows : List Row) (i j : ℕ) (enc : String)
    (rows' : List Row) (h : swapAt rows i j enc = some rows') :
    ∃ ri rj vi vj, rows[i]? = some ri ∧ rows[j]? = some rj ∧
      rowGet ri enc = some vi ∧ rowGet rj enc = some vj ∧
      rows' = (rows.set i (rowSet ri enc vj)).set j (rowSet rj enc vi) := by
  rw [swapAt] at h
  rcases hri : rows[i]? with _ | ri
  · simp [hri] at h
  rcases hrj : rows[j]? with _ | rj
  · simp [hri, hrj] at h
  rcases hvi : rowGet ri enc with _ | vi
  · simp [hri, hrj, hvi] at h
  rcases hvj : rowGet rj enc with _ | vj
  · simp [hri, hrj, hvi, hvj] at h
  refine ⟨ri, rj, vi, vj, rfl, rfl, hvi, hvj, ?_⟩
  simp [hri, hrj, hvi, hvj] at h
  exact h.symm

theorem swapAt_frame (rows : List Row) (i j : ℕ) (enc : String)
    (rows' : List Row) (h : swapAt rows i j enc = some rows') :
    rows'.length = rows.length ∧
    ∀ r k, k ≠ enc → rowGet (rows'.getD r []) k = rowGet (rows.getD r []) k := by
  obtain ⟨ri, rj, vi, vj, hri, hrj, hvi, hvj, heq⟩ := swapAt_spec rows i j enc rows' h
  have hilt : i < rows.length := by
    by_contra hc
    rw [List.getElem?_eq_none (by omega)] at hri
    exact absurd hri (by simp)
  have hjlt : j < rows.length := by
    by_contra hc
    rw [List.getElem?_eq_none (by omega)] at hrj
    exact absurd hrj (by simp)
  subst heq
  refine ⟨by simp, ?_⟩
  intro r k hk
  simp only [List.getD_eq_getElem?_getD]
  by_cases hrj' : r = j
  · subst hrj'
    rw [List.getElem?_set_self (by simpa using hjlt), hrj]
    simp only [Option.getD_some]
    exact rowGet_rowSet_ne _ _ _ _ (Ne.symm hk)
  · rw [List.getElem?_set_ne (fun hc => hrj' hc.symm)]
    by_cases hri' : r = i
    · subst hri'
      rw [List.getElem?_set_self hilt, hri]
      simp only [Option.getD_some]
      exact rowGet_rowSet_ne _ _ _ _ (Ne.symm hk)
    · rw [List.getElem?_set_ne (fun hc => hri' hc.symm)]

theorem foldPairs_frame (p : ℚ) (enc : String) :
    ∀ (ps : List (ℕ × ℕ)) (rows : List Row) (g : Rng)
      (rows' : List Row) (g' : Rng),
      foldPairs p enc ps rows g = some (rows', g') →
      rows'.length = rows.length ∧
      ∀ r k, k ≠ enc → rowGet (rows'.getD r []) k = rowGet (rows.getD r []) k := by
  intro ps
  induction ps with
  | nil =>
    intro rows g rows' g' h
    rw [foldPairs] at h
    simp only [Option.some.injEq, Prod.mk.injEq] at h
    rw [h.1]
    exact ⟨rfl, fun _ _ _ => rfl⟩
  | cons q rest ih =>
    rcases q with ⟨i, j⟩
    intro rows g rows' g' h
    rw [foldPairs] at h
    rcases hf : takeFloat g with ⟨u, g1⟩
    simp only [hf] at h
    by_cases hu : p ≤ u
    · rw [if_pos hu] at h
      exact ih _ _ _ _ h
    · rw [if_neg hu] at h
      rcases hsw : swapAt rows i j enc with _ | rows1
      · simp only [hsw] at h
        simp at h
      · simp only [hsw] at h
        have h1 := swapAt_frame rows i j enc rows1 hsw
        have h2 := ih _ _ _ _ h
        exact ⟨h2.1.trans h1.1, fun r k hk => (h2.2 r k hk).trans (h1.2 r k hk)⟩

theorem takeShuffle_perm (g : Rng) (n : ℕ) :
    ((takeShuffle g n).1).Perm (List.range n) := by
  rcases g with _ | ⟨d, g'⟩
  · exact List.Perm.refl _
  · rcases d with q | k | l
    · exact List.Perm.refl _
    · exact List.Perm.refl _
    · rw [takeShuffle]
      split_ifs with hp
      · exact hp
      · exact List.Perm.refl _

theorem mem_chunkPairs :
    ∀ (l : List ℕ) (q : ℕ × ℕ), q ∈ chunkPairs l → q.1 ∈ l ∧ q.2 ∈ l
  | [], q, h => by simp [chunkPairs] at h
  | [a], q, h => by simp [chunkPairs] at h
  | a :: b :: rest, q, h => by
    rw [chunkPairs] at h
    rcases List.mem_cons.1 h with h1 | h2
    · subst h1
      exact ⟨List.mem_cons_self a _, List.mem_cons_of_mem a (List.mem_cons_self b _)⟩
    · have hq := mem_chunkPairs rest q h2
      exact ⟨List.mem_cons_of_mem a (List.mem_cons_of_mem b hq.1),
        List.mem_cons_of_mem a (List.mem_cons_of_mem b hq.2)⟩

theorem countP_chunkPairs_le_one :
    ∀ (l : List ℕ), l.Nodup → ∀ r : ℕ,
      (chunkPairs l).countP (fun q => q.1 == r || q.2 == r) ≤ 1
  | [], _, r => by simp [chunkPairs]
  | [a], _, r => by simp [chunkPairs]
  | a :: b :: rest, hnd, r => by
    have hanb : a ∉ b :: rest := (List.nodup_cons.1 hnd).1
    have hnd1 : (b :: rest).Nodup := (List.nodup_cons.1 hnd).2
    have hbr : b ∉ rest := (List.nodup_cons.1 hnd1).1
    have hndr : rest.Nodup := (List.nodup_cons.1 hnd1).2
    rw [chunkPairs, List.countP_cons]
    by_cases hab : ((a, b).1 == r || (a, b).2 == r) = true
    · have hr : r = a ∨ r = b := by
        simp only [beq_iff_eq, Bool.or_eq_true] at hab
        tauto
      have hrrest : r ∉ rest := by
        rcases hr with h | h <;> subst h
        · exact fun hc => hanb (List.mem_cons_of_mem b hc)
        · exact hbr
      have hzero : (chunkPairs rest).countP (fun q => q.1 == r || q.2 == r) = 0 := by
        rw [List.countP_eq_zero]
        intro q hq
        have hmem := mem_chunkPairs rest q hq
        simp only [beq_iff_eq, Bool.or_eq_true, not_or]
        constructor
        · intro hc; exact hrrest (hc ▸ hmem.1)
        · intro hc; exact hrrest (hc ▸ hmem.2)
      rw [hzero, hab]
      simp
    · have hab' : ((a, b).1 == r || (a, b).2 == r) = false := by
        simpa using hab
      rw [hab']
      simpa using countP_chunkPairs_le_one rest hndr r

/-- C4: `apply_encoding_swaps` changes only encoding-column values (every
other column of every row is untouched and the row count is preserved),
each row participates in at most one swap attempt, and the call is a
no-op when the dataset is empty, the encoding column is absent from the
first row, or the swap probability is nonpositive. -/
theorem apply_encoding_swaps_frame (rows : List Row) (enc : String)
    (g : Rng) (p : ℚ) :
    (∀ rows' g', apply_encoding_swaps rows enc g p = some (rows', g') →
      rows'.length = rows.length ∧
      ∀ i k, k ≠ enc → rowGet (rows'.getD i []) k = rowGet (rows.getD i []) k) ∧
    (∀ r : ℕ, (chunkPairs (takeShuffle g rows.length).1).countP
      (fun q => q.1 == r || q.2 == r) ≤ 1) ∧
    (rows = [] ∨ rowGet (rows.headD []) enc = none ∨ p ≤ 0 →
      apply_encoding_swaps rows enc g p = some (rows, g)) := by
  refine ⟨?_, ?_, ?_⟩
  · intro rows' g' h
    rcases rows with _ | ⟨r0, rtl⟩
    · rw [apply_encoding_swaps] at h
      simp only [Option.some.injEq, Prod.mk.injEq] at h
      rw [← h.1]
      exact ⟨rfl, fun _ _ _ => rfl⟩
    · rw [apply_encoding_swaps] at h
      split_ifs at h with hno
      · simp only [Option.some.injEq, Prod.mk.injEq] at h
        rw [← h.1]
        exact ⟨rfl, fun _ _ _ => rfl⟩
      · rcases hsh : takeShuffle g (r0 :: rtl).length with ⟨idx, g1⟩
        simp only [hsh] at h
        exact foldPairs_frame p enc _ _ _ _ _ h
  · intro r
    have hperm := (takeShuffle_perm g rows.length).symm
    exact countP_chunkPairs_le_one _ (hperm.nodup (List.nodup_range _)) r
  · intro hcase
    rcases rows with _ | ⟨r0, rtl⟩
    · rw [apply_encoding_swaps]
    · rw [apply_encoding_swaps, if_pos]
      rcases hcase with h | h | h
      · exact absurd h (by simp)
      · exact Or.inl h
      · exact Or.inr h

/-- Closed witness for C4: a firing swap with `p = 1` exchanges only the
encoding column; the `"u"` column of row 0 is untouched. -/
theorem apply_encoding_swaps_frame_witness :
    apply_encoding_swaps [[("e", ['x']), ("u", ['1'])], [("e", ['y']), ("u", ['2'])]]
        "e" [Draw.perm [1, 0], Draw.flt 0] 1 =
      some ([[("e", ['y']), ("u", ['1'])], [("e", ['x']), ("u", ['2'])]], []) ∧
    ("u" : String) ≠ "e" ∧
    rowGet (([[("e", ['y']), ("u", ['1'])], [("e", ['x']), ("u", ['2'])]] :
        List Row).getD 0 []) "u" =
      rowGet (([[("e", ['x']), ("u", ['1'])], [("e", ['y']), ("u", ['2'])]] :
        List Row).getD 0 []) "u" := by
  refine ⟨by decide, by decide, ?_⟩
  exact ((apply_encoding_swaps_frame
    [[("e", ['x']), ("u", ['1'])], [("e", ['y']), ("u", ['2'])]] "e"
    [Draw.perm [1, 0], Draw.flt 0] 1).1
    [[("e", ['y']), ("u", ['1'])], [("e", ['x']), ("u", ['2'])]] []
    (by decide)).2 0 "u" (by decide)

/-! ## C5 helper lemmas -/

theorem takeFloat_WF (g : Rng) (u : ℚ) (g' : Rng) (hwf : WFRng g)
    (h : takeFloat g = (u, g')) : (0 ≤ u ∧ u < 1) ∧ WFRng g' := by
  rcases g with _ | ⟨d, gt⟩
  · have he : takeFloat [] = ((0 : ℚ), ([] : Rng)) := rfl
    rw [he] at h
    cases h
    exact ⟨⟨le_refl 0, by norm_num⟩, hwf⟩
  · have hwft : WFRng gt := fun q hq => hwf q (List.mem_cons_of_mem d hq)
    rcases d with q | k | l
    · have he : takeFloat (Draw.flt q :: gt) = (q, gt) := rfl
      rw [he] at h
      cases h
      exact ⟨hwf u (List.mem_cons_self _ _), hwft⟩
    · have he : takeFloat (Draw.nat k :: gt) = ((0 : ℚ), gt) := rfl
      rw [he] at h
      cases h
      exact ⟨⟨le_refl 0, by norm_num⟩, hwft⟩
    · have he : takeFloat (Draw.perm l :: gt) = ((0 : ℚ), gt) := rfl
      rw [he] at h
      cases h
      exact ⟨⟨le_refl 0, by norm_num⟩, hwft⟩

theorem takeShuffle_WF (g : Rng) (n : ℕ) (hwf : WFRng g) :
    WFRng (takeShuffle g n).2 := by
  rcases g with _ | ⟨d, gt⟩
  · exact hwf
  · have hwft : WFRng gt := fun q hq => hwf q (List.mem_cons_of_mem d hq)
    rcases d with q | k | l <;> simpa [takeShuffle] using hwft

theorem pairIndices_cons (q : ℕ × ℕ) (ps : List (ℕ × ℕ)) :
    pairIndices (q :: ps) = q.1 :: q.2 :: pairIndices ps := rfl

theorem mem_pairIndices (ps : List (ℕ × ℕ)) (x : ℕ) :
    x ∈ pairIndices ps ↔ ∃ q ∈ ps, x = q.1 ∨ x = q.2 := by
  simp only [pairIndices, List.mem_flatMap, List.mem_cons,
    List.not_mem_nil, or_false]

theorem pairIndices_chunkPairs_sublist :
    ∀ l : List ℕ, (pairIndices (chunkPairs l)).Sublist l
  | [] => by simp [chunkPairs, pairIndices]
  | [a] => by simp [chunkPairs, pairIndices]
  | a :: b :: rest => by
    rw [chunkPairs, pairIndices_cons]
    exact (pairIndices_chunkPairs_sublist rest).cons₂ b |>.cons₂ a

theorem pairIndices_chunkPairs_even :
    ∀ l : List ℕ, l.length % 2 = 0 → pairIndices (chunkPairs l) = l
  | [] , _ => by simp [chunkPairs, pairIndices]
  | [a], h => by simp at h
  | a :: b :: rest, h => by
    have h' : rest.length % 2 = 0 := by
      simp only [List.length_cons] at h
      omega
    rw [chunkPairs, pairIndices_cons, pairIndices_chunkPairs_even rest h']

theorem pair_ne_of_nodup :
    ∀ ps : List (ℕ × ℕ), (pairIndices ps).Nodup → ∀ q ∈ ps, q.1 ≠ q.2 := by
  intro ps
  induction ps with
  | nil => intro _ q hq; simp at hq
  | cons p rest ih =>
    intro hnd q hq
    rw [pairIndices_cons, List.nodup_cons] at hnd
    rcases List.mem_cons.1 hq with h | h
    · subst h
      exact fun hc => hnd.1 (hc ▸ List.mem_cons_self _ _)
    · exact ih (List.nodup_cons.1 hnd.2).2 q h

theorem mem_of_mem_set {α : Type} (l : List α) (n : ℕ) (a b : α)
    (h : a ∈ l.set n b) : a ∈ l ∨ a = b := List.mem_or_eq_of_mem_set h

/-- The main induction for C5: with `p = 1` every pair's gate fires and
the two rows of each pair end with each other's encodings. -/
theorem foldPairs_one_spec (enc : String) :
    ∀ (ps : List (ℕ × ℕ)) (rows : List Row) (g : Rng),
      WFRng g → (pairIndices ps).Nodup →
      (∀ x ∈ pairIndices ps, x < rows.length) →
      (∀ row ∈ rows, (rowGet row enc).isSome) →
      ∃ rows' g', foldPairs 1 enc ps rows g = some (rows', g') ∧
        rows'.length = rows.length ∧
        (∀ r, r ∉ pairIndices ps → rows'[r]? = rows[r]?) ∧
        (∀ q ∈ ps,
          rowGet (rows'.getD q.1 []) enc = rowGet (rows.getD q.2 []) enc ∧
          rowGet (rows'.getD q.2 []) enc = rowGet (rows.getD q.1 []) enc) := by
  intro ps
  induction ps with
  | nil =>
    intro rows g _ _ _ _
    exact ⟨rows, g, rfl, rfl, fun _ _ => rfl, fun q hq => by simp at hq⟩
  | cons q0 ps ih =>
    rcases q0 with ⟨i, j⟩
    intro rows g hwf hnd hbound hkeys
    rw [pairIndices_cons] at hnd hbound
    have hij : i ≠ j := by
      have := (List.nodup_cons.1 hnd).1
      exact fun hc => this (hc ▸ List.mem_cons_self _ _)
    have hiP : i ∉ pairIndices ps := by
      have := (List.nodup_cons.1 hnd).1
      exact fun hc => this (List.mem_cons_of_mem _ hc)
    have hjP : j ∉ pairIndices ps := (List.nodup_cons.1 (List.nodup_cons.1 hnd).2).1
    have hndP : (pairIndices ps).Nodup := (List.nodup_cons.1 (List.nodup_cons.1 hnd).2).2
    have hi : i < rows.length := hbound i (List.mem_cons_self _ _)
    have hj : j < rows.length := hbound j (List.mem_cons_of_mem _ (List.mem_cons_self _ _))
    rcases hf : takeFloat g with ⟨u, g1⟩
    obtain ⟨⟨hu0, hu1⟩, hwf1⟩ := takeFloat_WF g u g1 hwf hf
    have hri : rows[i]? = some rows[i] := List.getElem?_eq_getElem hi
    have hrj : rows[j]? = some rows[j] := List.getElem?_eq_getElem hj
    obtain ⟨vi, hvi⟩ := Option.isSome_iff_exists.1
      (hkeys rows[i] (List.getElem_mem hi))
    obtain ⟨vj, hvj⟩ := Option.isSome_iff_exists.1
      (hkeys rows[j] (List.getElem_mem hj))
    set rows1 := (rows.set i (rowSet rows[i] enc vj)).set j
      (rowSet rows[j] enc vi) with hrows1
    have hsw : swapAt rows i j enc = some rows1 := by
      simp [swapAt, hri, hrj, hvi, hvj, hrows1]
    have hlen1 : rows1.length = rows.length := by simp [hrows1]
    have hkeys1 : ∀ row ∈ rows1, (rowGet row enc).isSome := by
      intro row hrow
      rcases mem_of_mem_set _ _ _ _ hrow with h1 | h1
      · rcases mem_of_mem_set _ _ _ _ h1 with h2 | h2
        · exact hkeys row h2
        · rw [h2, rowGet_rowSet_same]; rfl
      · rw [h1, rowGet_rowSet_same]; rfl
    have hbound1 : ∀ x ∈ pairIndices ps, x < rows1.length := by
      intro x hx
      rw [hlen1]
      exact hbound x (List.mem_cons_of_mem _ (List.mem_cons_of_mem _ hx))
    obtain ⟨rows2, g2, hfold, hlen2, hframe2, hpairs2⟩ :=
      ih rows1 g1 hwf1 hndP hbound1 hkeys1
    have huntouched : ∀ r, r ≠ i → r ≠ j → rows1[r]? = rows[r]? := by
      intro r hri' hrj'
      rw [hrows1, List.getElem?_set_ne (fun hc => hrj' hc.symm),
        List.getElem?_set_ne (fun hc => hri' hc.symm)]
    refine ⟨rows2, g2, ?_, hlen2.trans hlen1, ?_, ?_⟩
    · rw [foldPairs]
      simp only [hf]
      rw [if_neg (not_le.2 hu1)]
      simp only [hsw]
      exact hfold
    · intro r hr
      have hr1 : r ≠ i := fun hc => hr (hc ▸ List.mem_cons_self _ _)
      have hr2 : r ≠ j := fun hc =>
        hr (hc ▸ List.mem_cons_of_mem _ (List.mem_cons_self _ _))
      have hr3 : r ∉ pairIndices ps := fun hc =>
        hr (List.mem_cons_of_mem _ (List.mem_cons_of_mem _ hc))
      rw [hframe2 r hr3, huntouched r hr1 hr2]
    · intro q hq
      rcases List.mem_cons.1 hq with h | h
      · subst h
        have h1i : rows1[i]? = some (rowSet rows[i] enc vj) := by
          rw [hrows1, List.getElem?_set_ne (Ne.symm hij),
            List.getElem?_set_self hi]
        have h1j : rows1[j]? = some (rowSet rows[j] enc vi) := by
          rw [hrows1, List.getElem?_set_self (by simpa using hj)]
        constructor
        · rw [List.getD_eq_getElem?_getD, hframe2 i hiP, h1i,
            List.getD_eq_getElem?_getD, hrj]
          simp only [Option.getD_some]
          rw [rowGet_rowSet_same, hvj]
        · rw [List.getD_eq_getElem?_getD, hframe2 j hjP, h1j,
            List.getD_eq_getElem?_getD, hri]
          simp only [Option.getD_some]
          rw [rowGet_rowSet_same, hvi]
      · have hq1 : q.1 ∈ pairIndices ps :=
          (mem_pairIndices ps q.1).2 ⟨q, h, Or.inl rfl⟩
        have hq2 : q.2 ∈ pairIndices ps :=
          (mem_pairIndices ps q.2).2 ⟨q, h, Or.inr rfl⟩
        have e1 : rows1[q.2]? = rows[q.2]? :=
          huntouched q.2 (fun hc => hiP (hc ▸ hq2)) (fun hc => hjP (hc ▸ hq2))
        have e2 : rows1[q.1]? = rows[q.1]? :=
          huntouched q.1 (fun hc => hiP (hc ▸ hq1)) (fun hc => hjP (hc ▸ hq1))
        have hp := hpairs2 q h
        constructor
        · rw [hp.1, List.getD_eq_getElem?_getD, List.getD_eq_getElem?_getD, e1]
        · rw [hp.2, List.getD_eq_getElem?_getD, List.getD_eq_getElem?_getD, e2]

/-- C5: under a well-formed generator trace, with an even row count and
`p = 1.0` every row's encoding differs from its pre-swap value except
when the row's own swap partner (the other row of its pair in the
realized pairing) already held an equal encoding; with `p = 0.0` the
dataset is returned unchanged. -/
theorem apply_encoding_swaps_full (rows : List Row) (enc : String) (g : Rng)
    (hwf : WFRng g) (heven : rows.length % 2 = 0)
    (hkeys : ∀ row ∈ rows, (rowGet row enc).isSome) :
    (∃ rows' g', apply_encoding_swaps rows enc g 1 = some (rows', g') ∧
      ∀ i, i < rows.length →
        rowGet (rows'.getD i []) enc ≠ rowGet (rows.getD i []) enc ∨
        ∃ j, j < rows.length ∧ j ≠ i ∧
          ((i, j) ∈ chunkPairs (takeShuffle g rows.length).1 ∨
           (j, i) ∈ chunkPairs (takeShuffle g rows.length).1) ∧
          rowGet (rows.getD j []) enc = rowGet (rows.getD i []) enc) ∧
    apply_encoding_swaps rows enc g 0 = some (rows, g) := by
  constructor
  · rcases hrows : rows with _ | ⟨r0, rtl⟩
    · exact ⟨[], g, rfl, fun i hi => by simp at hi⟩
    · rw [← hrows]
      have hr0 : rows.headD [] = r0 := by rw [hrows]; rfl
      have hr0mem : r0 ∈ rows := by rw [hrows]; exact List.mem_cons_self _ _
      have hcond : ¬ (rowGet r0 enc = none ∨ (1 : ℚ) ≤ 0) := by
        rintro (hc | hc)
        · have := hkeys r0 hr0mem
          rw [hc] at this
          exact absurd this (by simp)
        · norm_num at hc
      rcases hsh : takeShuffle g rows.length with ⟨idx, g1⟩
      have hperm : idx.Perm (List.range rows.length) := by
        have := takeShuffle_perm g rows.length
        rw [hsh] at this
        exact this
      have hwf1 : WFRng g1 := by
        have := takeShuffle_WF g rows.length hwf
        rw [hsh] at this
        exact this
      have hidxlen : idx.length = rows.length := by
        have := hperm.length_eq
        simpa using this
      have hpieq : pairIndices (chunkPairs idx) = idx :=
        pairIndices_chunkPairs_even idx (by rw [hidxlen]; exact heven)
      have hnd : (pairIndices (chunkPairs idx)).Nodup := by
        rw [hpieq]
        exact hperm.symm.nodup (List.nodup_range _)
      have hbound : ∀ x ∈ pairIndices (chunkPairs idx), x < rows.length := by
        intro x hx
        rw [hpieq] at hx
        exact List.mem_range.1 (hperm.mem_iff.1 hx)
      obtain ⟨rows2, g2, hfold, hlen2, hframe2, hpairs2⟩ :=
        foldPairs_one_spec enc (chunkPairs idx) rows g1 hwf1 hnd hbound hkeys
      refine ⟨rows2, g2, ?_, ?_⟩
      · rw [hrows, apply_encoding_swaps, if_neg hcond, ← hrows]
        simp only [hsh]
        exact hfold
      · intro i hi
        simp only [hsh]
        have hiidx : i ∈ pairIndices (chunkPairs idx) := by
          rw [hpieq]
          exact hperm.mem_iff.2 (List.mem_range.2 hi)
        obtain ⟨q, hq, hcase⟩ := (mem_pairIndices _ i).1 hiidx
        have hqne : q.1 ≠ q.2 := pair_ne_of_nodup _ hnd q hq
        have hp := hpairs2 q hq
        rcases hcase with h1 | h1
        · subst h1
          have hq2 : q.2 ∈ pairIndices (chunkPairs idx) :=
            (mem_pairIndices _ q.2).2 ⟨q, hq, Or.inr rfl⟩
          have hq2lt : q.2 < rows.length := hbound q.2 hq2
          by_cases heq : rowGet (rows.getD q.2 []) enc = rowGet (rows.getD q.1 []) enc
          · exact Or.inr ⟨q.2, hq2lt, Ne.symm hqne,
              Or.inl (by rw [Prod.mk.eta]; exact hq), heq⟩
          · left
            rw [hp.1]
            exact heq
        · subst h1
          have hq1 : q.1 ∈ pairIndices (chunkPairs idx) :=
            (mem_pairIndices _ q.1).2 ⟨q, hq, Or.inl rfl⟩
          have hq1lt : q.1 < rows.length := hbound q.1 hq1
          by_cases heq : rowGet (rows.getD q.1 []) enc = rowGet (rows.getD q.2 []) enc
          · exact Or.inr ⟨q.1, hq1lt, hqne,
              Or.inr (by rw [Prod.mk.eta]; exact hq), heq⟩
          · left
            rw [hp.2]
            exact heq
  · rcases hrows : rows with _ | ⟨r0, rtl⟩
    · rfl
    · rw [apply_encoding_swaps, if_pos (Or.inr (le_refl 0))]

/-- Closed witness for C5 with two rows holding distinct encodings. -/
theorem apply_encoding_swaps_full_witness :
    ([[("e", ['x'])], [("e", ['y'])]] : List Row).length % 2 = 0 ∧
    apply_encoding_swaps [[("e", ['x'])], [("e", ['y'])]] "e"
      [Draw.perm [1, 0]] 0 =
      some ([[("e", ['x'])], [("e", ['y'])]], [Draw.perm [1, 0]]) :=
  ⟨by decide,
    (apply_encoding_swaps_full [[("e", ['x'])], [("e", ['y'])]] "e"
      [Draw.perm [1, 0]]
      (by intro q hq; simp at hq)
      (by decide) (by decide)).2⟩

/-! ## C2 helper lemmas: digits and tokens -/

theorem digitChar_isDigit (n : ℕ) (h : n < 10) :
    (Nat.digitChar n).isDigit = true := by
  interval_cases n <;> decide

theorem digitChar_ne_zero (n : ℕ) (h1 : 1 ≤ n) (h2 : n < 10) :
    Nat.digitChar n ≠ '0' := by
  interval_cases n <;> decide

theorem charVal_digitChar (n : ℕ) (h : n < 10) :
    charVal (Nat.digitChar n) = n := by
  interval_cases n <;> decide

theorem digit_isWordChar (c : Char) (h : c.isDigit = true) :
    isWordChar c = true := by
  simp only [isWordChar, Char.isAlphanum, Bool.or_eq_true]
  exact Or.inl (Or.inr h)

theorem digit_ne_slash (c : Char) (h : c.isDigit = true) : c ≠ '/' := by
  intro hc; subst hc; simp [Char.isDigit] at h

theorem digit_ne_dash (c : Char) (h : c.isDigit = true) : c ≠ '-' := by
  intro hc; subst hc; simp [Char.isDigit] at h

theorem digit_ne_space (c : Char) (h : c.isDigit = true) : c ≠ ' ' := by
  intro hc; subst hc; simp [Char.isDigit] at h

theorem pad2_digits (n : ℕ) (h : n < 100) :
    ∀ c ∈ pad2 n, c.isDigit = true := by
  intro c hc
  rw [pad2] at hc
  split_ifs at hc with hn
  · rcases List.mem_cons.1 hc with h1 | h1
    · subst h1; decide
    · simp only [List.mem_singleton] at h1
      subst h1
      exact digitChar_isDigit n hn
  · rcases List.mem_cons.1 hc with h1 | h1
    · subst h1
      exact digitChar_isDigit _ (by omega)
    · simp only [List.mem_singleton] at h1
      subst h1
      exact digitChar_isDigit _ (Nat.mod_lt _ (by norm_num))

theorem pad4_digits (n : ℕ) (h : n ≤ 9999) :
    ∀ c ∈ pad4 n, c.isDigit = true := by
  intro c hc
  rw [pad4] at hc
  simp only [List.mem_cons, List.not_mem_nil, or_false] at hc
  rcases hc with h1 | h1 | h1 | h1 <;> subst h1
  · exact digitChar_isDigit _ (by omega)
  · exact digitChar_isDigit _ (Nat.mod_lt _ (by norm_num))
  · exact digitChar_isDigit _ (Nat.mod_lt _ (by norm_num))
  · exact digitChar_isDigit _ (Nat.mod_lt _ (by norm_num))

theorem unpad2_digits (n : ℕ) (h : n < 100) :
    ∀ c ∈ unpad2 n, c.isDigit = true := by
  intro c hc
  rw [unpad2] at hc
  split_ifs at hc with hn
  · simp only [List.mem_singleton] at hc
    subst hc
    exact digitChar_isDigit n hn
  · exact pad2_digits n h c hc

theorem tokNat_pad4 (n : ℕ) (h : n ≤ 9999) : tokNat (pad4 n) = some n := by
  have hd := pad4_digits n h
  rw [pad4] at hd ⊢
  rw [tokNat]
  rw [if_pos ⟨by simp, by simp only [List.all_eq_true]; exact hd⟩]
  simp only [List.foldl]
  rw [charVal_digitChar _ (by omega), charVal_digitChar _ (Nat.mod_lt _ (by norm_num)),
    charVal_digitChar _ (Nat.mod_lt _ (by norm_num)),
    charVal_digitChar _ (Nat.mod_lt _ (by norm_num))]
  congr 1
  omega

/-- `%m` accepts the zero-padded and the zero-stripped month token. -/
theorem mTok_pad2 (m : ℕ) (h1 : 1 ≤ m) (h2 : m ≤ 12) :
    mTok (pad2 m) = some m ∧ mTok (unpad2 m) = some m := by
  interval_cases m <;> exact ⟨by decide, by decide⟩

/-- `%d` accepts the zero-padded and the zero-stripped day token. -/
theorem dTok_pad2 (d : ℕ) (h1 : 1 ≤ d) (h2 : d ≤ 31) :
    dTok (pad2 d) = some d ∧ dTok (unpad2 d) = some d := by
  interval_cases d <;> exact ⟨by decide, by decide⟩

/-- `%Y` accepts the four-digit year token. -/
theorem yTok_pad4 (y : ℕ) (h : y ≤ 9999) : yTok (pad4 y) = some y := by
  rw [yTok]
  simp only [tokNat_pad4 y h]
  simp [pad4]

/-- Facts about the month abbreviation tokens. -/
theorem abbr_facts (m : ℕ) (h1 : 1 ≤ m) (h2 : m ≤ 12) :
    (∃ c t, monthAbbrs.getD (m - 1) [] = c :: t ∧ c ≠ '0') ∧
    (∀ c ∈ monthAbbrs.getD (m - 1) [], isWordChar c = true) ∧
    (∀ c ∈ monthAbbrs.getD (m - 1) [],
      c ≠ '/' ∧ c ≠ '-' ∧ c ≠ ' ' ∧ c ≠ '0') ∧
    bTok (monthAbbrs.getD (m - 1) []) = some m := by
  interval_cases m <;>
    exact ⟨⟨_, _, rfl, by decide⟩, by decide, by decide, by decide⟩

/-! ## C2 helper lemmas: splitSep -/

theorem splitSep_no_sep (sep : Char) (t : List Char) (h : sep ∉ t) :
    splitSep sep t = [t] := by
  induction t with
  | nil => rfl
  | cons c rest ih =>
    have hc : c ≠ sep := fun hc => h (hc ▸ List.mem_cons_self _ _)
    have hrest : sep ∉ rest := fun hr => h (List.mem_cons_of_mem _ hr)
    rw [splitSep, if_neg (fun hc' => hc hc'), ih hrest]

theorem splitSep_append_sep (sep : Char) (t rest : List Char) (h : sep ∉ t) :
    splitSep sep (t ++ sep :: rest) = t :: splitSep sep rest := by
  induction t with
  | nil =>
    rw [List.nil_append, splitSep, if_pos rfl]
  | cons c t' ih =>
    have hc : c ≠ sep := fun hc => h (hc ▸ List.mem_cons_self _ _)
    have ht' : sep ∉ t' := fun hr => h (List.mem_cons_of_mem _ hr)
    rw [List.cons_append, splitSep, if_neg (fun hc' => hc hc'), ih ht']

/-! ## C2 helper lemmas: strptime on well-formed token triples -/

theorem mkValid_pos (y m d : ℕ)
    (hv : 1 ≤ y ∧ y ≤ 9999 ∧ 1 ≤ m ∧ m ≤ 12 ∧ 1 ≤ d ∧ d ≤ daysInMonth y m) :
    mkValid y m d = some ⟨y, m, d⟩ := by
  rw [mkValid, if_pos hv]

theorem strptime_mdY_eq (tm td ty : List Char) (m d y : ℕ)
    (hm : mTok tm = some m) (hd : dTok td = some d) (hy : yTok ty = some y)
    (h1 : '/' ∉ tm) (h2 : '/' ∉ td) (h3 : '/' ∉ ty)
    (hv : 1 ≤ y ∧ y ≤ 9999 ∧ 1 ≤ m ∧ m ≤ 12 ∧ 1 ≤ d ∧ d ≤ daysInMonth y m) :
    strptime .mdY (tm ++ '/' :: (td ++ '/' :: ty)) = some ⟨y, m, d⟩ := by
  rw [strptime, splitSep_append_sep '/' tm _ h1, splitSep_append_sep '/' td _ h2,
    splitSep_no_sep '/' ty h3]
  simp only [hm, hd, hy, Option.bind_eq_bind, Option.some_bind]
  exact mkValid_pos y m d hv

theorem strptime_dmY_eq (td tm ty : List Char) (m d y : ℕ)
    (hm : mTok tm = some m) (hd : dTok td = some d) (hy : yTok ty = some y)
    (h1 : '/' ∉ td) (h2 : '/' ∉ tm) (h3 : '/' ∉ ty)
    (hv : 1 ≤ y ∧ y ≤ 9999 ∧ 1 ≤ m ∧ m ≤ 12 ∧ 1 ≤ d ∧ d ≤ daysInMonth y m) :
    strptime .dmY (td ++ '/' :: (tm ++ '/' :: ty)) = some ⟨y, m, d⟩ := by
  rw [strptime, splitSep_append_sep '/' td _ h1, splitSep_append_sep '/' tm _ h2,
    splitSep_no_sep '/' ty h3]
  simp only [hm, hd, hy, Option.bind_eq_bind, Option.some_bind]
  exact mkValid_pos y m d hv

theorem strptime_Ymd_eq (ty tm td : List Char) (m d y : ℕ)
    (hm : mTok tm = some m) (hd : dTok td = some d) (hy : yTok ty = some y)
    (h1 : '-' ∉ ty) (h2 : '-' ∉ tm) (h3 : '-' ∉ td)
    (hv : 1 ≤ y ∧ y ≤ 9999 ∧ 1 ≤ m ∧ m ≤ 12 ∧ 1 ≤ d ∧ d ≤ daysInMonth y m) :
    strptime .Ymd (ty ++ '-' :: (tm ++ '-' :: td)) = some ⟨y, m, d⟩ := by
  rw [strptime, splitSep_append_sep '-' ty _ h1, splitSep_append_sep '-' tm _ h2,
    splitSep_no_sep '-' td h3]
  simp only [hm, hd, hy, Option.bind_eq_bind, Option.some_bind]
  exact mkValid_pos y m d hv

theorem strptime_mdY2_eq (tm td ty : List Char) (m d y : ℕ)
    (hm : mTok tm = some m) (hd : dTok td = some d) (hy : yTok ty = some y)
    (h1 : '-' ∉ tm) (h2 : '-' ∉ td) (h3 : '-' ∉ ty)
    (hv : 1 ≤ y ∧ y ≤ 9999 ∧ 1 ≤ m ∧ m ≤ 12 ∧ 1 ≤ d ∧ d ≤ daysInMonth y m) :
    strptime .mdY2 (tm ++ '-' :: (td ++ '-' :: ty)) = some ⟨y, m, d⟩ := by
  rw [strptime, splitSep_append_sep '-' tm _ h1, splitSep_append_sep '-' td _ h2,
    splitSep_no_sep '-' ty h3]
  simp only [hm, hd, hy, Option.bind_eq_bind, Option.some_bind]
  exact mkValid_pos y m d hv

theorem strptime_dbY_eq (td tb ty : List Char) (m d y : ℕ)
    (hm : bTok tb = some m) (hd : dTok td = some d) (hy : yTok ty = some y)
    (h1 : ' ' ∉ td) (h2 : ' ' ∉ tb) (h3 : ' ' ∉ ty)
    (hv : 1 ≤ y ∧ y ≤ 9999 ∧ 1 ≤ m ∧ m ≤ 12 ∧ 1 ≤ d ∧ d ≤ daysInMonth y m) :
    strptime .dbY (td ++ ' ' :: (tb ++ ' ' :: ty)) = some ⟨y, m, d⟩ := by
  rw [strptime, splitSep_append_sep ' ' td _ h1, splitSep_append_sep ' ' tb _ h2,
    splitSep_no_sep ' ' ty h3]
  simp only [hm, hd, hy, Option.bind_eq_bind, Option.some_bind]
  exact mkValid_pos y m d hv

/-! ## C2 helper lemmas: the zero-stripping pass -/

theorem stripGo_cons_true (c : Char) (l : List Char) :
    stripGo true (c :: l) = c :: stripGo (isWordChar c) l := by
  rcases l with _ | ⟨d, rest⟩
  · rfl
  · rw [stripGo, if_neg (by simp)]

theorem stripGo_cons_ne_zero (b : Bool) (c : Char) (l : List Char)
    (h : c ≠ '0') : stripGo b (c :: l) = c :: stripGo (isWordChar c) l := by
  rcases l with _ | ⟨d, rest⟩
  · rfl
  · rw [stripGo, if_neg (by simp [h])]

theorem stripGo_zero_digit (d : Char) (rest : List Char)
    (h : d.isDigit = true) :
    stripGo false ('0' :: d :: rest) = d :: stripGo true rest := by
  rw [stripGo, if_pos ⟨rfl, rfl, h⟩]

theorem stripGo_word_append (t rest : List Char)
    (hw : ∀ c ∈ t, isWordChar c = true) :
    stripGo true (t ++ rest) = t ++ stripGo true rest := by
  induction t with
  | nil => rfl
  | cons c t' ih =>
    rw [List.cons_append, stripGo_cons_true,
      hw c (List.mem_cons_self _ _),
      ih (fun x hx => hw x (List.mem_cons_of_mem _ hx))]
    rfl

theorem strip_word_tok (c : Char) (t rest : List Char)
    (hc : c ≠ '0') (hcw : isWordChar c = true)
    (hw : ∀ x ∈ t, isWordChar x = true) :
    stripGo false ((c :: t) ++ rest) = (c :: t) ++ stripGo true rest := by
  rw [List.cons_append, stripGo_cons_ne_zero false c _ hc, hcw,
    stripGo_word_append t rest hw]
  rfl

theorem strip_pad2_append (x : ℕ) (rest : List Char)
    (h1 : 1 ≤ x) (h2 : x ≤ 99) :
    stripGo false (pad2 x ++ rest) = unpad2 x ++ stripGo true rest := by
  by_cases hx : x < 10
  · rw [pad2, if_pos hx, unpad2, if_pos hx, List.cons_append, List.cons_append,
      List.nil_append, stripGo_zero_digit _ _ (digitChar_isDigit x hx)]
    rfl
  · rw [pad2, if_neg hx, unpad2, if_neg hx, pad2, if_neg hx]
    have hd1 : Nat.digitChar (x / 10) ≠ '0' :=
      digitChar_ne_zero _ (by omega) (by omega)
    have hd1w : isWordChar (Nat.digitChar (x / 10)) = true :=
      digit_isWordChar _ (digitChar_isDigit _ (by omega))
    have hd2w : isWordChar (Nat.digitChar (x % 10)) = true :=
      digit_isWordChar _ (digitChar_isDigit _ (Nat.mod_lt _ (by norm_num)))
    exact strip_word_tok _ _ rest hd1 hd1w
      (fun c hc => by
        simp only [List.mem_singleton] at hc
        rw [hc]
        exact hd2w)

theorem strip_pad4_append (y : ℕ) (rest : List Char)
    (h1 : 1000 ≤ y) (h2 : y ≤ 9999) :
    stripGo false (pad4 y ++ rest) = pad4 y ++ stripGo true rest := by
  rw [pad4]
  have hd1 : Nat.digitChar (y / 1000) ≠ '0' :=
    digitChar_ne_zero _ (by omega) (by omega)
  refine strip_word_tok _ _ rest hd1
    (digit_isWordChar _ (digitChar_isDigit _ (by omega))) ?_
  intro c hc
  simp only [List.mem_cons, List.not_mem_nil, or_false] at hc
  rcases hc with h | h | h <;> subst h <;>
    exact digit_isWordChar _ (digitChar_isDigit _ (Nat.mod_lt _ (by norm_num)))

theorem stripGo_nil (b : Bool) : stripGo b [] = [] := rfl

theorem strip_pad2_end (x : ℕ) (h1 : 1 ≤ x) (h2 : x ≤ 99) :
    stripGo false (pad2 x) = unpad2 x := by
  have := strip_pad2_append x [] h1 h2
  simpa [stripGo_nil] using this

theorem strip_pad4_end (y : ℕ) (h1 : 1000 ≤ y) (h2 : y ≤ 9999) :
    stripGo false (pad4 y) = pad4 y := by
  have := strip_pad4_append y [] h1 h2
  simpa [stripGo_nil] using this

theorem stripGo_sep (b : Bool) (sep : Char) (l : List Char)
    (h0 : sep ≠ '0') (hw : isWordChar sep = false) :
    stripGo b (sep :: l) = sep :: stripGo false l := by
  rw [stripGo_cons_ne_zero b sep l h0, hw]

/-! ## C2 helper lemmas: token character sets and separator maps -/

theorem daysInMonth_le_31 (y m : ℕ) : daysInMonth y m ≤ 31 := by
  rw [daysInMonth]
  split_ifs <;> omega

theorem daysInMonth_pos (y m : ℕ) (h1 : 1 ≤ m) (h2 : m ≤ 12) :
    1 ≤ daysInMonth y m := by
  rw [daysInMonth]
  split_ifs <;> omega

theorem unpad2_ne_seps (n : ℕ) (h : n < 100) :
    '/' ∉ unpad2 n ∧ '-' ∉ unpad2 n ∧ ' ' ∉ unpad2 n :=
  ⟨fun hm => absurd (unpad2_digits n h _ hm) (by decide),
   fun hm => absurd (unpad2_digits n h _ hm) (by decide),
   fun hm => absurd (unpad2_digits n h _ hm) (by decide)⟩

theorem pad2_ne_seps (n : ℕ) (h : n < 100) :
    '/' ∉ pad2 n ∧ '-' ∉ pad2 n ∧ ' ' ∉ pad2 n :=
  ⟨fun hm => absurd (pad2_digits n h _ hm) (by decide),
   fun hm => absurd (pad2_digits n h _ hm) (by decide),
   fun hm => absurd (pad2_digits n h _ hm) (by decide)⟩

theorem pad4_ne_seps (n : ℕ) (h : n ≤ 9999) :
    '/' ∉ pad4 n ∧ '-' ∉ pad4 n ∧ ' ' ∉ pad4 n :=
  ⟨fun hm => absurd (pad4_digits n h _ hm) (by decide),
   fun hm => absurd (pad4_digits n h _ hm) (by decide),
   fun hm => absurd (pad4_digits n h _ hm) (by decide)⟩

theorem slashToDash_no_slash (t : List Char) (h : '/' ∉ t) :
    slashToDash t = t := by
  induction t with
  | nil => rfl
  | cons c rest ih =>
    have hc : c ≠ '/' := fun hc => h (hc ▸ List.mem_cons_self _ _)
    rw [slashToDash, List.map_cons, if_neg hc]
    rw [slashToDash] at ih
    rw [ih (fun hm => h (List.mem_cons_of_mem _ hm))]

theorem dashToSlash_no_dash (t : List Char) (h : '-' ∉ t) :
    dashToSlash t = t := by
  induction t with
  | nil => rfl
  | cons c rest ih =>
    have hc : c ≠ '-' := fun hc => h (hc ▸ List.mem_cons_self _ _)
    rw [dashToSlash, List.map_cons, if_neg hc]
    rw [dashToSlash] at ih
    rw [ih (fun hm => h (List.mem_cons_of_mem _ hm))]

/-! ## C2 helper lemmas: zero-stripped renderings of the five formats -/

theorem strip_strftime_mdY (d : PyDate) (hmd : ValidMD d)
    (hy1 : 1000 ≤ d.year) (hy2 : d.year ≤ 9999) :
    stripZeros (strftime .mdY d) =
      unpad2 d.month ++ '/' :: (unpad2 d.day ++ '/' :: pad4 d.year) := by
  obtain ⟨hm1, hm2, hd1, hd2⟩ := hmd
  have hd31 : d.day ≤ 31 := hd2.trans (daysInMonth_le_31 _ _)
  rw [stripZeros, strftime,
    strip_pad2_append d.month _ hm1 (by omega),
    stripGo_sep true '/' _ (by decide) (by decide),
    strip_pad2_append d.day _ hd1 (by omega),
    stripGo_sep true '/' _ (by decide) (by decide),
    strip_pad4_end d.year hy1 hy2]

theorem strip_strftime_dmY (d : PyDate) (hmd : ValidMD d)
    (hy1 : 1000 ≤ d.year) (hy2 : d.year ≤ 9999) :
    stripZeros (strftime .dmY d) =
      unpad2 d.day ++ '/' :: (unpad2 d.month ++ '/' :: pad4 d.year) := by
  obtain ⟨hm1, hm2, hd1, hd2⟩ := hmd
  have hd31 : d.day ≤ 31 := hd2.trans (daysInMonth_le_31 _ _)
  rw [stripZeros, strftime,
    strip_pad2_append d.day _ hd1 (by omega),
    stripGo_sep true '/' _ (by decide) (by decide),
    strip_pad2_append d.month _ hm1 (by omega),
    stripGo_sep true '/' _ (by decide) (by decide),
    strip_pad4_end d.year hy1 hy2]

theorem strip_strftime_Ymd (d : PyDate) (hmd : ValidMD d)
    (hy1 : 1000 ≤ d.year) (hy2 : d.year ≤ 9999) :
    stripZeros (strftime .Ymd d) =
      pad4 d.year ++ '-' :: (unpad2 d.month ++ '-' :: unpad2 d.day) := by
  obtain ⟨hm1, hm2, hd1, hd2⟩ := hmd
  have hd31 : d.day ≤ 31 := hd2.trans (daysInMonth_le_31 _ _)
  rw [stripZeros, strftime,
    strip_pad4_append d.year _ hy1 hy2,
    stripGo_sep true '-' _ (by decide) (by decide),
    strip_pad2_append d.month _ hm1 (by omega),
    stripGo_sep true '-' _ (by decide) (by decide),
    strip_pad2_end d.day hd1 (by omega)]

theorem strip_strftime_mdY2 (d : PyDate) (hmd : ValidMD d)
    (hy1 : 1000 ≤ d.year) (hy2 : d.year ≤ 9999) :
    stripZeros (strftime .mdY2 d) =
      unpad2 d.month ++ '-' :: (unpad2 d.day ++ '-' :: pad4 d.year) := by
  obtain ⟨hm1, hm2, hd1, hd2⟩ := hmd
  have hd31 : d.day ≤ 31 := hd2.trans (daysInMonth_le_31 _ _)
  rw [stripZeros, strftime,
    strip_pad2_append d.month _ hm1 (by omega),
    stripGo_sep true '-' _ (by decide) (by decide),
    strip_pad2_append d.day _ hd1 (by omega),
    stripGo_sep true '-' _ (by decide) (by decide),
    strip_pad4_end d.year hy1 hy2]

theorem strip_strftime_dbY (d : PyDate) (hmd : ValidMD d)
    (hy1 : 1000 ≤ d.year) (hy2 : d.year ≤ 9999) :
    stripZeros (strftime .dbY d) =
      unpad2 d.day ++ ' ' :: (monthAbbrs.getD (d.month - 1) [] ++
        ' ' :: pad4 d.year) := by
  obtain ⟨hm1, hm2, hd1, hd2⟩ := hmd
  have hd31 : d.day ≤ 31 := hd2.trans (daysInMonth_le_31 _ _)
  obtain ⟨⟨c, t, hct, hc0⟩, hw, _, _⟩ := abbr_facts d.month hm1 hm2
  rw [stripZeros, strftime,
    strip_pad2_append d.day _ hd1 (by omega),
    stripGo_sep true ' ' _ (by decide) (by decide), hct,
    strip_word_tok c t _ hc0
      (hw c (by rw [hct]; exact List.mem_cons_self _ _))
      (fun x hx => hw x (by rw [hct]; exact List.mem_cons_of_mem _ hx)),
    stripGo_sep true ' ' _ (by decide) (by decide),
    strip_pad4_end d.year hy1 hy2]

/-! ## C2 helper lemmas: calendar stepping -/

theorem validMD_mk (y m dd : ℕ) (h1 : 1 ≤ m) (h2 : m ≤ 12) (h3 : 1 ≤ dd)
    (h4 : dd ≤ daysInMonth y m) : ValidMD ⟨y, m, dd⟩ := ⟨h1, h2, h3, h4⟩

theorem validMD_nextDay (d : PyDate) (h : ValidMD d) : ValidMD (nextDay d) := by
  obtain ⟨hm1, hm2, hd1, hd2⟩ := h
  rw [nextDay]
  split_ifs with h1 h2
  · exact validMD_mk _ _ _ hm1 hm2 (by omega) (by omega)
  · exact validMD_mk _ _ _ (by omega) (by omega) (le_refl 1)
      (daysInMonth_pos _ _ (by omega) (by omega))
  · exact validMD_mk _ _ _ (by omega) (by omega) (le_refl 1)
      (daysInMonth_pos _ _ (by omega) (by omega))

theorem validMD_prevDay (d : PyDate) (h : ValidMD d) : ValidMD (prevDay d) := by
  obtain ⟨hm1, hm2, hd1, hd2⟩ := h
  rw [prevDay]
  split_ifs with h1 h2
  · exact validMD_mk _ _ _ hm1 hm2 (by omega) (by omega)
  · exact validMD_mk _ _ _ (by omega) (by omega)
      (daysInMonth_pos _ _ (by omega) (by omega)) (le_refl _)
  · refine validMD_mk _ _ _ (by omega) (by omega) (by norm_num) ?_
    rw [daysInMonth]
    norm_num

theorem validMD_nextDay_iter (d : PyDate) (h : ValidMD d) (n : ℕ) :
    ValidMD (nextDay^[n] d) := by
  induction n with
  | zero => exact h
  | succ k ih =>
    rw [Function.iterate_succ_apply']
    exact validMD_nextDay _ ih

theorem validMD_prevDay_iter (d : PyDate) (h : ValidMD d) (n : ℕ) :
    ValidMD (prevDay^[n] d) := by
  induction n with
  | zero => exact h
  | succ k ih =>
    rw [Function.iterate_succ_apply']
    exact validMD_prevDay _ ih

theorem year_nextDay (d : PyDate) :
    d.year ≤ (nextDay d).year ∧ (nextDay d).year ≤ d.year + 1 := by
  rw [nextDay]
  split_ifs <;> simp <;> omega

theorem year_prevDay (d : PyDate) :
    (prevDay d).year ≤ d.year ∧ d.year ≤ (prevDay d).year + 1 := by
  rw [prevDay]
  split_ifs <;> simp <;> omega

theorem year_nextDay_iter (d : PyDate) (n : ℕ) :
    d.year ≤ (nextDay^[n] d).year ∧ (nextDay^[n] d).year ≤ d.year + n := by
  induction n with
  | zero => simp
  | succ k ih =>
    rw [Function.iterate_succ_apply']
    have h := year_nextDay (nextDay^[k] d)
    omega

theorem year_prevDay_iter (d : PyDate) (n : ℕ) :
    (prevDay^[n] d).year ≤ d.year ∧ d.year ≤ (prevDay^[n] d).year + n := by
  induction n with
  | zero => simp
  | succ k ih =>
    rw [Function.iterate_succ_apply']
    have h := year_prevDay (prevDay^[k] d)
    omega

theorem addDays_validMD (d : PyDate) (h : ValidMD d) (z : ℤ) :
    ValidMD (addDays d z) := by
  rw [addDays]
  split_ifs
  · exact validMD_nextDay_iter d h _
  · exact validMD_prevDay_iter d h _

theorem addDays_year_ge (d : PyDate) (z : ℤ) (M : ℕ)
    (hz1 : -(M : ℤ) ≤ z) (hz2 : z ≤ M) :
    d.year ≤ (addDays d z).year + M := by
  rw [addDays]
  split_ifs with hz
  · have h := year_nextDay_iter d z.toNat
    omega
  · have h := year_prevDay_iter d (-z).toNat
    have hn : (-z).toNat ≤ M := by omega
    omega

theorem pyRandint_bounds (M k : ℕ) :
    -(M : ℤ) ≤ pyRandint (-(M : ℤ)) M k ∧ pyRandint (-(M : ℤ)) M k ≤ M := by
  rw [pyRandint]
  have hpos : (0 : ℤ) < (M : ℤ) - -(M : ℤ) + 1 := by omega
  have h1 : 0 ≤ (k : ℤ) % ((M : ℤ) - -(M : ℤ) + 1) :=
    Int.emod_nonneg _ (by omega)
  have h2 : (k : ℤ) % ((M : ℤ) - -(M : ℤ) + 1) < (M : ℤ) - -(M : ℤ) + 1 :=
    Int.emod_lt_of_pos _ hpos
  omega

/-! ## C2: re-parse lemmas for rendered dates -/

theorem slashToDash_append (a b : List Char) :
    slashToDash (a ++ b) = slashToDash a ++ slashToDash b := by
  simp [slashToDash]

theorem slashToDash_cons (c : Char) (l : List Char) :
    slashToDash (c :: l) = (if c = '/' then '-' else c) :: slashToDash l := by
  simp [slashToDash]

theorem dashToSlash_append (a b : List Char) :
    dashToSlash (a ++ b) = dashToSlash a ++ dashToSlash b := by
  simp [dashToSlash]

theorem dashToSlash_cons (c : Char) (l : List Char) :
    dashToSlash (c :: l) = (if c = '-' then '/' else c) :: dashToSlash l := by
  simp [dashToSlash]

/-- Every format re-parses its own plain (zero-padded) rendering. -/
theorem reparse_plain (dt : PyDate) (hmd : ValidMD dt)
    (hy1 : 1 ≤ dt.year) (hy2 : dt.year ≤ 9999) :
    ∀ f : DFmt, (strptime f (strftime f dt)).isSome = true := by
  obtain ⟨hm1, hm2, hd1, hd2⟩ := hmd
  have hd31 : dt.day ≤ 31 := hd2.trans (daysInMonth_le_31 _ _)
  have hv : 1 ≤ dt.year ∧ dt.year ≤ 9999 ∧ 1 ≤ dt.month ∧ dt.month ≤ 12 ∧
      1 ≤ dt.day ∧ dt.day ≤ daysInMonth dt.year dt.month :=
    ⟨hy1, hy2, hm1, hm2, hd1, hd2⟩
  have hmT := (mTok_pad2 dt.month hm1 hm2).1
  have hdT := (dTok_pad2 dt.day hd1 hd31).1
  have hyT := yTok_pad4 dt.year hy2
  have hmS := pad2_ne_seps dt.month (by omega)
  have hdS := pad2_ne_seps dt.day (by omega)
  have hyS := pad4_ne_seps dt.year hy2
  obtain ⟨_, _, habS, hbT⟩ := abbr_facts dt.month hm1 hm2
  intro f
  cases f
  · rw [show strftime DFmt.mdY dt =
        pad2 dt.month ++ '/' :: (pad2 dt.day ++ '/' :: pad4 dt.year) from rfl,
      strptime_mdY_eq _ _ _ _ _ _ hmT hdT hyT hmS.1 hdS.1 hyS.1 hv]
    rfl
  · rw [show strftime DFmt.dmY dt =
        pad2 dt.day ++ '/' :: (pad2 dt.month ++ '/' :: pad4 dt.year) from rfl,
      strptime_dmY_eq _ _ _ _ _ _ hmT hdT hyT hdS.1 hmS.1 hyS.1 hv]
    rfl
  · rw [show strftime DFmt.Ymd dt =
        pad4 dt.year ++ '-' :: (pad2 dt.month ++ '-' :: pad2 dt.day) from rfl,
      strptime_Ymd_eq _ _ _ _ _ _ hmT hdT hyT hyS.2.1 hmS.2.1 hdS.2.1 hv]
    rfl
  · rw [show strftime DFmt.mdY2 dt =
        pad2 dt.month ++ '-' :: (pad2 dt.day ++ '-' :: pad4 dt.year) from rfl,
      strptime_mdY2_eq _ _ _ _ _ _ hmT hdT hyT hmS.2.1 hdS.2.1 hyS.2.1 hv]
    rfl
  · rw [show strftime DFmt.dbY dt =
        pad2 dt.day ++ ' ' :: (monthAbbrs.getD (dt.month - 1) [] ++
          ' ' :: pad4 dt.year) from rfl,
      strptime_dbY_eq _ _ _ _ _ _ hbT hdT hyT hdS.2.2
        (fun hm => (habS _ hm).2.2.1 rfl) hyS.2.2 hv]
    rfl

/-- Every format re-parses its own zero-stripped rendering, for years
with four significant digits. -/
theorem reparse_strip (dt : PyDate) (hmd : ValidMD dt)
    (hy1 : 1000 ≤ dt.year) (hy2 : dt.year ≤ 9999) :
    ∀ f : DFmt, (strptime f (stripZeros (strftime f dt))).isSome = true := by
  obtain ⟨hm1, hm2, hd1, hd2⟩ := hmd
  have hd31 : dt.day ≤ 31 := hd2.trans (daysInMonth_le_31 _ _)
  have hv : 1 ≤ dt.year ∧ dt.year ≤ 9999 ∧ 1 ≤ dt.month ∧ dt.month ≤ 12 ∧
      1 ≤ dt.day ∧ dt.day ≤ daysInMonth dt.year dt.month :=
    ⟨by omega, hy2, hm1, hm2, hd1, hd2⟩
  have hmT := (mTok_pad2 dt.month hm1 hm2).2
  have hdT := (dTok_pad2 dt.day hd1 hd31).2
  have hyT := yTok_pad4 dt.year hy2
  have hmS := unpad2_ne_seps dt.month (by omega)
  have hdS := unpad2_ne_seps dt.day (by omega)
  have hyS := pad4_ne_seps dt.year hy2
  obtain ⟨_, _, habS, hbT⟩ := abbr_facts dt.month hm1 hm2
  intro f
  cases f
  · rw [strip_strftime_mdY dt ⟨hm1, hm2, hd1, hd2⟩ hy1 hy2,
      strptime_mdY_eq _ _ _ _ _ _ hmT hdT hyT hmS.1 hdS.1 hyS.1 hv]
    rfl
  · rw [strip_strftime_dmY dt ⟨hm1, hm2, hd1, hd2⟩ hy1 hy2,
      strptime_dmY_eq _ _ _ _ _ _ hmT hdT hyT hdS.1 hmS.1 hyS.1 hv]
    rfl
  · rw [strip_strftime_Ymd dt ⟨hm1, hm2, hd1, hd2⟩ hy1 hy2,
      strptime_Ymd_eq _ _ _ _ _ _ hmT hdT hyT hyS.2.1 hmS.2.1 hdS.2.1 hv]
    rfl
  · rw [strip_strftime_mdY2 dt ⟨hm1, hm2, hd1, hd2⟩ hy1 hy2,
      strptime_mdY2_eq _ _ _ _ _ _ hmT hdT hyT hmS.2.1 hdS.2.1 hyS.2.1 hv]
    rfl
  · rw [strip_strftime_dbY dt ⟨hm1, hm2, hd1, hd2⟩ hy1 hy2,
      strptime_dbY_eq _ _ _ _ _ _ hbT hdT hyT hdS.2.2
        (fun hm => (habS _ hm).2.2.1 rfl) hyS.2.2 hv]
    rfl

/-- After separator substitution, the stripped `%m/%d/%Y` rendering
parses under `%m-%d-%Y`. -/
theorem reparse_dash_mdY (dt : PyDate) (hmd : ValidMD dt)
    (hy1 : 1000 ≤ dt.year) (hy2 : dt.year ≤ 9999) :
    (strptime .mdY2 (slashToDash (stripZeros (strftime .mdY dt)))).isSome = true := by
  obtain ⟨hm1, hm2, hd1, hd2⟩ := hmd
  have hd31 : dt.day ≤ 31 := hd2.trans (daysInMonth_le_31 _ _)
  have hv : 1 ≤ dt.year ∧ dt.year ≤ 9999 ∧ 1 ≤ dt.month ∧ dt.month ≤ 12 ∧
      1 ≤ dt.day ∧ dt.day ≤ daysInMonth dt.year dt.month :=
    ⟨by omega, hy2, hm1, hm2, hd1, hd2⟩
  have hmT := (mTok_pad2 dt.month hm1 hm2).2
  have hdT := (dTok_pad2 dt.day hd1 hd31).2
  have hyT := yTok_pad4 dt.year hy2
  have hmS := unpad2_ne_seps dt.month (by omega)
  have hdS := unpad2_ne_seps dt.day (by omega)
  have hyS := pad4_ne_seps dt.year hy2
  rw [strip_strftime_mdY dt ⟨hm1, hm2, hd1, hd2⟩ hy1 hy2,
    slashToDash_append, slashToDash_cons, if_pos rfl,
    slashToDash_append, slashToDash_cons, if_pos rfl,
    slashToDash_no_slash _ hmS.1, slashToDash_no_slash _ hdS.1,
    slashToDash_no_slash _ hyS.1,
    strptime_mdY2_eq _ _ _ _ _ _ hmT hdT hyT hmS.2.1 hdS.2.1 hyS.2.1 hv]
  rfl

/-- Undoing the separator substitution recovers the stripped `%d/%m/%Y`
rendering, which parses under `%d/%m/%Y`. -/
theorem reparse_dash_dmY (dt : PyDate) (hmd : ValidMD dt)
    (hy1 : 1000 ≤ dt.year) (hy2 : dt.year ≤ 9999) :
    (strptime .dmY (dashToSlash (slashToDash
      (stripZeros (strftime .dmY dt))))).isSome = true := by
  obtain ⟨hm1, hm2, hd1, hd2⟩ := hmd
  have hd31 : dt.day ≤ 31 := hd2.trans (daysInMonth_le_31 _ _)
  have hv : 1 ≤ dt.year ∧ dt.year ≤ 9999 ∧ 1 ≤ dt.month ∧ dt.month ≤ 12 ∧
      1 ≤ dt.day ∧ dt.day ≤ daysInMonth dt.year dt.month :=
    ⟨by omega, hy2, hm1, hm2, hd1, hd2⟩
  have hmT := (mTok_pad2 dt.month hm1 hm2).2
  have hdT := (dTok_pad2 dt.day hd1 hd31).2
  have hyT := yTok_pad4 dt.year hy2
  have hmS := unpad2_ne_seps dt.month (by omega)
  have hdS := unpad2_ne_seps dt.day (by omega)
  have hyS := pad4_ne_seps dt.year hy2
  rw [strip_strftime_dmY dt ⟨hm1, hm2, hd1, hd2⟩ hy1 hy2,
    slashToDash_append, slashToDash_cons, if_pos rfl,
    slashToDash_append, slashToDash_cons, if_pos rfl,
    slashToDash_no_slash _ hdS.1, slashToDash_no_slash _ hmS.1,
    slashToDash_no_slash _ hyS.1,
    dashToSlash_append, dashToSlash_cons, if_pos rfl,
    dashToSlash_append, dashToSlash_cons, if_pos rfl,
    dashToSlash_no_dash _ hdS.2.1, dashToSlash_no_dash _ hmS.2.1,
    dashToSlash_no_dash _ hyS.2.1,
    strptime_dmY_eq _ _ _ _ _ _ hmT hdT hyT hdS.1 hmS.1 hyS.1 hv]
  rfl

/-- The separator substitution is the identity on the stripped renderings
of the three slash-free formats. -/
theorem slashToDash_strip_id (dt : PyDate) (hmd : ValidMD dt)
    (hy1 : 1000 ≤ dt.year) (hy2 : dt.year ≤ 9999) :
    slashToDash (stripZeros (strftime .Ymd dt)) = stripZeros (strftime .Ymd dt) ∧
    slashToDash (stripZeros (strftime .mdY2 dt)) = stripZeros (strftime .mdY2 dt) ∧
    slashToDash (stripZeros (strftime .dbY dt)) = stripZeros (strftime .dbY dt) := by
  obtain ⟨hm1, hm2, hd1, hd2⟩ := hmd
  have hd31 : dt.day ≤ 31 := hd2.trans (daysInMonth_le_31 _ _)
  have hmS := unpad2_ne_seps dt.month (by omega)
  have hdS := unpad2_ne_seps dt.day (by omega)
  have hyS := pad4_ne_seps dt.year hy2
  obtain ⟨_, _, habS, _⟩ := abbr_facts dt.month hm1 hm2
  refine ⟨?_, ?_, ?_⟩
  · rw [strip_strftime_Ymd dt ⟨hm1, hm2, hd1, hd2⟩ hy1 hy2]
    apply slashToDash_no_slash
    intro hm
    rcases List.mem_append.1 hm with h | h
    · exact hyS.1 h
    · rcases List.mem_cons.1 h with h | h
      · exact absurd h (by decide)
      · rcases List.mem_append.1 h with h | h
        · exact hmS.1 h
        · rcases List.mem_cons.1 h with h | h
          · exact absurd h (by decide)
          · exact hdS.1 h
  · rw [strip_strftime_mdY2 dt ⟨hm1, hm2, hd1, hd2⟩ hy1 hy2]
    apply slashToDash_no_slash
    intro hm
    rcases List.mem_append.1 hm with h | h
    · exact hmS.1 h
    · rcases List.mem_cons.1 h with h | h
      · exact absurd h (by decide)
      · rcases List.mem_append.1 h with h | h
        · exact hdS.1 h
        · rcases List.mem_cons.1 h with h | h
          · exact absurd h (by decide)
          · exact hyS.1 h
  · rw [strip_strftime_dbY dt ⟨hm1, hm2, hd1, hd2⟩ hy1 hy2]
    apply slashToDash_no_slash
    intro hm
    rcases List.mem_append.1 hm with h | h
    · exact hdS.1 h
    · rcases List.mem_cons.1 h with h | h
      · exact absurd h (by decide)
      · rcases List.mem_append.1 h with h | h
        · exact (habS _ h).1 rfl
        · rcases List.mem_cons.1 h with h | h
          · exact absurd h (by decide)
          · exact hyS.1 h

/-- The rendering tail of `format_birthday` always produces a string that
parses under one of the five formats, directly or after undoing the
separator substitution, provided the rendered year has four significant
digits. -/
theorem renderBirthday_reparse (dt : PyDate) (g : Rng) (config : NoiseConfig)
    (hmd : ValidMD dt) (hy1 : 1000 ≤ dt.year) (hy2 : dt.year ≤ 9999)
    (s : List Char) (g' : Rng) (h : renderBirthday dt g config = (s, g')) :
    (∃ f : DFmt, (strptime f s).isSome = true) ∨
    (∃ f : DFmt, (strptime f (dashToSlash s)).isSome = true) := by
  rw [renderBirthday] at h
  rcases hk : takeNat g with ⟨k, g1⟩
  simp only [hk] at h
  rcases hu3e : takeFloat g1 with ⟨u3, g2⟩
  simp only [hu3e] at h
  by_cases hu3 : u3 < config.date_format_prob
  · rw [if_pos hu3] at h
    rcases hu4e : takeFloat g2 with ⟨u4, g3⟩
    simp only [hu4e] at h
    by_cases hu4 : u4 < threeTenths
    · rw [if_pos hu4] at h
      simp only [Prod.mk.injEq] at h
      obtain ⟨hs, _⟩ := h
      have h5 : pyChoiceIdx k 5 = 0 ∨ pyChoiceIdx k 5 = 1 ∨ pyChoiceIdx k 5 = 2 ∨
          pyChoiceIdx k 5 = 3 ∨ pyChoiceIdx k 5 = 4 := by
        have : pyChoiceIdx k 5 < 5 := Nat.mod_lt _ (by norm_num)
        omega
      rcases h5 with h5 | h5 | h5 | h5 | h5 <;> rw [h5] at hs
      · exact Or.inl ⟨.mdY2, by
          rw [← hs, show outFormats.getD 0 DFmt.mdY = DFmt.mdY from rfl]
          exact reparse_dash_mdY dt hmd hy1 hy2⟩
      · exact Or.inr ⟨.dmY, by
          rw [← hs, show outFormats.getD 1 DFmt.mdY = DFmt.dmY from rfl]
          exact reparse_dash_dmY dt hmd hy1 hy2⟩
      · refine Or.inl ⟨.Ymd, ?_⟩
        rw [← hs, show outFormats.getD 2 DFmt.mdY = DFmt.Ymd from rfl,
          (slashToDash_strip_id dt hmd hy1 hy2).1]
        exact reparse_strip dt hmd hy1 hy2 .Ymd
      · refine Or.inl ⟨.mdY2, ?_⟩
        rw [← hs, show outFormats.getD 3 DFmt.mdY = DFmt.mdY2 from rfl,
          (slashToDash_strip_id dt hmd hy1 hy2).2.1]
        exact reparse_strip dt hmd hy1 hy2 .mdY2
      · refine Or.inl ⟨.dbY, ?_⟩
        rw [← hs, show outFormats.getD 4 DFmt.mdY = DFmt.dbY from rfl,
          (slashToDash_strip_id dt hmd hy1 hy2).2.2]
        exact reparse_strip dt hmd hy1 hy2 .dbY
    · rw [if_neg hu4] at h
      simp only [Prod.mk.injEq] at h
      obtain ⟨hs, _⟩ := h
      exact Or.inl ⟨outFormats.getD (pyChoiceIdx k 5) .mdY, by
        rw [← hs]
        exact reparse_strip dt hmd hy1 hy2 _⟩
  · rw [if_neg hu3] at h
    simp only [Prod.mk.injEq] at h
    obtain ⟨hs, _⟩ := h
    exact Or.inl ⟨outFormats.getD (pyChoiceIdx k 5) .mdY, by
      rw [← hs]
      exact reparse_plain dt hmd (by omega) hy2 _⟩

/-- C2 (amended): for every parsed date, rng state and NoiseConfig, a
string returned by `format_birthday` either equals one of the four
placeholder tokens or parses under at least one of the five output
formats, possibly after mapping the substituted `-` separators back to
`/`, provided the date is at least `max_date_shift_days` years past the
year 1000 (so the possibly shifted year keeps four significant digits). -/
theorem format_birthday_reparse (dt : PyDate) (g : Rng) (config : NoiseConfig)
    (s : List Char) (g' : Rng)
    (hmd : ValidMD dt) (hy2 : dt.year ≤ 9999)
    (hfar : 1000 + config.max_date_shift_days ≤ dt.year)
    (hres : format_birthday dt g config = (some s, g')) :
    s ∈ dateTokens ∨ (∃ f : DFmt, (strptime f s).isSome = true) ∨
      (∃ f : DFmt, (strptime f (dashToSlash s)).isSome = true) := by
  rw [format_birthday] at hres
  rcases h1 : takeFloat g with ⟨u1, g1⟩
  simp only [h1] at hres
  by_cases hu1 : u1 < config.date_text_token_prob
  · rw [if_pos hu1] at hres
    rcases h2 : takeNat g1 with ⟨k, g2⟩
    simp only [h2] at hres
    simp only [Prod.mk.injEq, Option.some.injEq] at hres
    obtain ⟨hs, _⟩ := hres
    left
    have h4 : pyChoiceIdx k 4 = 0 ∨ pyChoiceIdx k 4 = 1 ∨ pyChoiceIdx k 4 = 2 ∨
        pyChoiceIdx k 4 = 3 := by
      have : pyChoiceIdx k 4 < 4 := Nat.mod_lt _ (by norm_num)
      omega
    rcases h4 with h4 | h4 | h4 | h4 <;> rw [h4] at hs <;> rw [← hs] <;> decide
  · rw [if_neg hu1] at hres
    rcases h2 : takeFloat g1 with ⟨u2, g2⟩
    simp only [h2] at hres
    by_cases hu2 : u2 < config.date_shift_prob
    · rw [if_pos hu2] at hres
      rcases h3 : takeNat g2 with ⟨k, g3⟩
      simp only [h3] at hres
      by_cases hrange :
          1 ≤ (addDays dt (pyRandint (-(config.max_date_shift_days : ℤ))
            (config.max_date_shift_days : ℤ) k)).year ∧
          (addDays dt (pyRandint (-(config.max_date_shift_days : ℤ))
            (config.max_date_shift_days : ℤ) k)).year ≤ 9999
      · rw [if_pos hrange] at hres
        rcases h4 : renderBirthday (addDays dt
            (pyRandint (-(config.max_date_shift_days : ℤ))
              (config.max_date_shift_days : ℤ) k)) g3 config with ⟨s2, g4⟩
        simp only [h4] at hres
        simp only [Prod.mk.injEq, Option.some.injEq] at hres
        obtain ⟨hs, hg⟩ := hres
        have hdelta := pyRandint_bounds config.max_date_shift_days k
        have hyg := addDays_year_ge dt _ config.max_date_shift_days
          hdelta.1 hdelta.2
        have hmd2 : ValidMD (addDays dt
            (pyRandint (-(config.max_date_shift_days : ℤ))
              (config.max_date_shift_days : ℤ) k)) :=
          addDays_validMD dt hmd _
        refine Or.inr (renderBirthday_reparse _ g3 config hmd2
          (by omega) hrange.2 s g' ?_)
        rw [h4, hs, hg]
      · rw [if_neg hrange] at hres
        simp at hres
    · rw [if_neg hu2] at hres
      rcases h4 : renderBirthday dt g2 config with ⟨s2, g4⟩
      simp only [h4] at hres
      simp only [Prod.mk.injEq, Option.some.injEq] at hres
      obtain ⟨hs, hg⟩ := hres
      refine Or.inr (renderBirthday_reparse dt g2 config hmd
        (by omega) hy2 s g' ?_)
      rw [h4, hs, hg]

/-- Counterexample to C2 as stated: rendering January 25th 1990 under
`%d/%m/%Y`, then stripping the leading zero and substituting `/` by `-`,
yields `"25-1-1990"`, which is no placeholder token and parses under none
of the five output formats (`%m` rejects 25 and `%Y` demands four
digits). -/
theorem format_birthday_reparse_cex :
    parse_birthday ("25/01/1990".data) = some ⟨1990, 1, 25⟩ ∧
    (format_birthday ⟨1990, 1, 25⟩
        [Draw.flt 0, Draw.flt 0, Draw.nat 1, Draw.flt 0, Draw.flt 0]
        ⟨0, 0, 0, 0, 0, 0, 0, 0, 0, 1, 0, 1⟩).1 =
      some ("25-1-1990".data) ∧
    ("25-1-1990".data ∈ dateTokens → False) ∧
    strptime .mdY ("25-1-1990".data) = none ∧
    strptime .dmY ("25-1-1990".data) = none ∧
    strptime .Ymd ("25-1-1990".data) = none ∧
    strptime .mdY2 ("25-1-1990".data) = none ∧
    strptime .dbY ("25-1-1990".data) = none := by
  refine ⟨by decide, by decide, by decide, by decide, by decide, by decide,
    by decide, by decide⟩

/-- Closed witness for the amended C2 at January 2nd 1990 with no gate
firing: the output `"01/02/1990"` re-parses. -/
theorem format_birthday_reparse_witness :
    ValidMD ⟨1990, 1, 2⟩ ∧
    ("01/02/1990".data ∈ dateTokens ∨
      (∃ f : DFmt, (strptime f ("01/02/1990".data)).isSome = true) ∨
      (∃ f : DFmt, (strptime f (dashToSlash ("01/02/1990".data))).isSome = true)) :=
  ⟨⟨by decide, by decide, by decide, by decide⟩,
    format_birthday_reparse ⟨1990, 1, 2⟩ [] ⟨0, 0, 0, 0, 0, 0, 0, 0, 0, 0, 0, 12⟩
      ("01/02/1990".data) [] ⟨by decide, by decide, by decide, by decide⟩
      (by decide) (by decide) (by decide)⟩

end NoisePipeline
